import Mathlib

/-!
Shallow embedding of the balance-consistency and aggregation core of the
expense-tracker backend (NestJS/TypeORM services), translated from:

* `src/modules/payment-methods/services/payment-methods.service.ts` (PaymentMethodsService)
* the ExpensesService (create/createFromOcr/createFromVoice/update/remove/getSummary/
  suggestCategory/suggestCategoryFromHint/invalidateCache)
* the CategoriesService (findOne/findAll/remove/reorder) and the entity definitions.

Modelling conventions:
* monetary values (decimal(15,2) columns, JS numbers) are embedded as `ℚ`;
* entity ids (DB-generated uuids) are embedded as naturals drawn from a
  per-state counter `nextId`, which models the generator's freshness guarantee;
* the cache-manager collaborator is one string-keyed store, with the exact key
  strings built by the code (`expenses:summary:<u>`, `categories:<u>`, ...);
  its TTL-based expiry is not modelled, only explicit `del`/`set`;
* nullable columns and optional DTO fields are `Option`;
* NestJS exceptions are an error type (`BadRequestException` is the spec's
  InvalidOperation kind); services run in an `Except` monad.  In every service
  below each `throw` happens before the first write of that operation (for
  `ExpensesService.update`/`remove` this relies on referential integrity of the
  state, see `updateBalance_ok_of_ref`), so an error leaving the state
  unchanged matches the transaction-free code;
* the storage collaborator (S3) only produces/deletes attachment blobs; its
  outputs are passed in as parameters and its failures are not modelled.
-/

namespace ExpenseTracker

/-- Entity ids: opaque DB-generated identifiers, modelled as naturals. -/
abbrev EntityId := Nat

/-- Authenticated owner identifier (opaque string, provided by the JWT guard). -/
abbrev UserId := String

/-- Error taxonomy of the services: NotFoundException, ConflictException and
BadRequestException (the specification's InvalidOperation kind). -/
inductive ApiError where
  | notFound (msg : String)
  | conflict (msg : String)
  | invalidOperation (msg : String)
deriving Repr, DecidableEq

/-- Calendar date without time of day (`date` columns, date-fns values). -/
structure SimpleDate where
  year : Int
  month : Int
  day : Int
deriving Repr, DecidableEq

/-- Lexicographic order on calendar dates (SQL BETWEEN comparisons). -/
def SimpleDate.leb (a b : SimpleDate) : Bool :=
  decide (a.year < b.year ∨ (a.year = b.year ∧
    (a.month < b.month ∨ (a.month = b.month ∧ a.day ≤ b.day))))

/-- date-fns `startOfMonth`. -/
def startOfMonth (d : SimpleDate) : SimpleDate := { d with day := 1 }

/-- date-fns `endOfMonth`.  The last day of the month is at most 31; since
valid dates have `day ≤ 31` and comparisons are lexicographic, day 31 bounds
the month exactly like the real end-of-month timestamp does. -/
def endOfMonth (d : SimpleDate) : SimpleDate := { d with day := 31 }

/-- date-fns `subMonths(d, 1)`. -/
def subOneMonth (d : SimpleDate) : SimpleDate :=
  if d.month = 1 then { d with year := d.year - 1, month := 12 }
  else { d with month := d.month - 1 }

/-- `expense.date BETWEEN :start AND :end` (inclusive). -/
def dateBetween (d lo hi : SimpleDate) : Bool := lo.leb d && d.leb hi

/-- `ExpenseSource` enum of the Expense entity. -/
inductive ExpenseSource where
  | manual
  | voice
  | ocr
deriving Repr, DecidableEq

/-- `PaymentMethodType` enum of the PaymentMethod entity. -/
inductive PaymentMethodType where
  | cash
  | debitCard
  | creditCard
  | transfer
  | digitalWallet
deriving Repr, DecidableEq

/-- `Category` entity.  `userId` is nullable (system categories have none). -/
structure Category where
  id : EntityId
  name : String
  description : Option String := none
  icon : Option String := none
  color : String
  isSystem : Bool
  orderIndex : Int
  userId : Option UserId
deriving Repr, DecidableEq

/-- `PaymentMethod` entity (`type` column is named `pmType` here). -/
structure PaymentMethod where
  id : EntityId
  name : String
  pmType : PaymentMethodType
  lastFourDigits : Option String := none
  bankName : Option String := none
  icon : Option String := none
  color : Option String := none
  balance : ℚ
  creditLimit : Option ℚ := none
  expirationDate : Option SimpleDate := none
  isActive : Bool
  isDefault : Bool
  userId : UserId
deriving Repr, DecidableEq

/-- `Expense` entity.  `ocrData` (a jsonb blob) is kept opaque as a string. -/
structure Expense where
  id : EntityId
  amount : ℚ
  description : String
  notes : Option String := none
  date : SimpleDate
  source : ExpenseSource
  receiptUrl : Option String := none
  receiptS3Key : Option String := none
  ocrData : Option String := none
  voiceTranscription : Option String := none
  voiceAudioUrl : Option String := none
  voiceAudioS3Key : Option String := none
  userId : UserId
  categoryId : EntityId
  paymentMethodId : EntityId
deriving Repr, DecidableEq

/-- One entry of `ExpenseSummaryDto.byCategory`.  The joined category columns
are nullable (LEFT JOIN).  `percentage` is `none` when the JS computation
`total / totalAmount * 100` divides by zero (NaN/Infinity). -/
structure CategorySummaryEntry where
  categoryId : EntityId
  categoryName : Option String
  categoryColor : Option String
  count : Nat
  total : ℚ
  percentage : Option ℚ
deriving Repr, DecidableEq

/-- One entry of `ExpenseSummaryDto.byPaymentMethod`. -/
structure PaymentMethodSummaryEntry where
  paymentMethodId : EntityId
  paymentMethodName : Option String
  count : Nat
  total : ℚ
  percentage : Option ℚ
deriving Repr, DecidableEq

/-- `ExpenseSummaryDto`. -/
structure ExpenseSummaryDto where
  totalExpenses : Nat
  totalAmount : ℚ
  averageExpense : ℚ
  currentMonthTotal : ℚ
  lastMonthTotal : ℚ
  percentageChange : ℚ
  byCategory : List CategorySummaryEntry
  byPaymentMethod : List PaymentMethodSummaryEntry
deriving Repr, DecidableEq

/-- Values held by the cache-manager store. -/
inductive CacheValue where
  | summary (v : ExpenseSummaryDto)
  | categoryList (v : List Category)
  | paymentMethodList (v : List PaymentMethod)
deriving Repr, DecidableEq

/-- The cache-manager collaborator: one string-keyed store. -/
abbrev CacheStore := List (String × CacheValue)

/-- `cacheManager.get(key)`. -/
def cacheGet (c : CacheStore) (k : String) : Option CacheValue :=
  (c.find? (fun kv => kv.1 == k)).map (·.2)

/-- `cacheManager.del(key)`. -/
def cacheDel (c : CacheStore) (k : String) : CacheStore :=
  c.filter (fun kv => kv.1 != k)

/-- `cacheManager.set(key, value, ttl)` (TTL not modelled). -/
def cacheSet (c : CacheStore) (k : String) (v : CacheValue) : CacheStore :=
  (k, v) :: cacheDel c k

/-- The persistent state: the three entity tables, the cache store and the
DB id generator. -/
structure St where
  categories : List Category
  paymentMethods : List PaymentMethod
  expenses : List Expense
  cache : CacheStore
  nextId : EntityId
deriving Repr, DecidableEq

/-- Insertion of `x` into a list sorted by the boolean comparator `le`. -/
def insertSorted (le : α → α → Bool) (x : α) : List α → List α
  | [] => [x]
  | y :: ys => if le x y then x :: y :: ys else y :: insertSorted le x ys

/-- Stable insertion sort, modelling SQL ORDER BY clauses. -/
def insertionSortBy (le : α → α → Bool) : List α → List α
  | [] => []
  | x :: xs => insertSorted le x (insertionSortBy le xs)

/-- `dto field ?? current` for `Option`-typed entity columns: `Object.assign`
overwrites the column only when the DTO field is present. -/
def overrideOpt (dto cur : Option α) : Option α :=
  match dto with
  | some v => some v
  | none => cur

namespace CategoriesService

/-- `categories:<userId>` cache key used by the CategoriesService. -/
def cacheKey (u : UserId) : String := "categories:" ++ u

/-- `findOne(userId, id)`: `where: [{id, userId}, {id, isSystem: true}]`. -/
def findOne (s : St) (u : UserId) (id : EntityId) : Except ApiError Category :=
  match s.categories.find? (fun c => c.id == id && (c.userId == some u || c.isSystem)) with
  | some c => Except.ok c
  | none => Except.error (ApiError.notFound "Categoría no encontrada")

/-- ORDER BY `orderIndex ASC, name ASC`. -/
def catLe (a b : Category) : Bool :=
  decide (a.orderIndex < b.orderIndex ∨ (a.orderIndex = b.orderIndex ∧ a.name ≤ b.name))

/-- The database result of `findAll(userId)` (cache aside):
`where: [{userId}, {isSystem: true}]`, ordered by (orderIndex, name). -/
def findAllList (s : St) (u : UserId) : List Category :=
  insertionSortBy catLe (s.categories.filter (fun c => c.userId == some u || c.isSystem))

/-- `findAll(userId)`: read-through cache over `findAllList`. -/
def findAll (s : St) (u : UserId) : List Category × St :=
  match cacheGet s.cache (cacheKey u) with
  | some (CacheValue.categoryList l) => (l, s)
  | _ =>
    let l := findAllList s u
    (l, { s with cache := cacheSet s.cache (cacheKey u) (CacheValue.categoryList l) })

/-- The `hasExpenses` guard of `remove`:
`createQueryBuilder('category').leftJoin('category.expenses', 'expense')
 .where('category.id = :id').getCount()`.
TypeORM `getCount()` issues `SELECT COUNT(DISTINCT category.id)`: it counts the
distinct *primary* entities matching the WHERE clause, so joined expense rows
never change it — it is 1 whenever the category exists, whatever its expense
count.  (On top of that the `expenses` relation is commented out in the
Category entity, so at runtime the join itself errors; either way the count
never reflects the referencing expenses.) -/
def removeGuardCount (s : St) (id : EntityId) : Nat :=
  (((s.categories.filter (fun c => c.id == id)).map (·.id)).dedup).length

/-- `repository.save` of an already-persisted category: update by primary key. -/
def saveById (l : List Category) (c : Category) : List Category :=
  l.map (fun x => if x.id = c.id then c else x)

/-- `remove(userId, id)`. -/
def remove (s : St) (u : UserId) (id : EntityId) : Except ApiError (Unit × St) :=
  match findOne s u id with
  | Except.error e => Except.error e
  | Except.ok category =>
    if category.isSystem then
      Except.error (ApiError.invalidOperation "No se pueden eliminar las categorías del sistema")
    else if category.userId ≠ some u then
      Except.error (ApiError.invalidOperation "No tienes permiso para eliminar esta categoría")
    else if removeGuardCount s id > 0 then
      Except.error (ApiError.invalidOperation
        "No se puede eliminar una categoría que tiene gastos asociados")
    else
      Except.ok ((), { s with
        categories := s.categories.filter (fun c => c.id != category.id)
        cache := cacheDel s.cache (cacheKey u) })

/-- The loop body of `reorder`: `findOne` (which can throw NotFound), then
assign `orderIndex := i` and save when the caller owns the category. -/
def reorderLoop (s : St) (u : UserId) : List EntityId → Nat → Except ApiError St
  | [], _ => Except.ok s
  | id :: rest, i =>
    match findOne s u id with
    | Except.error e => Except.error e
    | Except.ok category =>
      let s1 := if category.userId = some u then
          { s with categories := saveById s.categories { category with orderIndex := (i : Int) } }
        else s
      reorderLoop s1 u rest (i + 1)

/-- `reorder(userId, categoryIds)`. -/
def reorder (s : St) (u : UserId) (categoryIds : List EntityId) : Except ApiError (Unit × St) :=
  match reorderLoop s u categoryIds 0 with
  | Except.error e => Except.error e
  | Except.ok s1 => Except.ok ((), { s1 with cache := cacheDel s1.cache (cacheKey u) })

end CategoriesService

/-- `CreatePaymentMethodDto` (after ValidationPipe: only these fields). -/
structure CreatePaymentMethodDto where
  name : String
  pmType : PaymentMethodType
  lastFourDigits : Option String := none
  bankName : Option String := none
  icon : Option String := none
  color : Option String := none
  balance : Option ℚ := none
  creditLimit : Option ℚ := none
  expirationDate : Option SimpleDate := none
  isDefault : Option Bool := none
deriving Repr, DecidableEq

/-- `UpdatePaymentMethodDto = PartialType(CreatePaymentMethodDto) + isActive?`. -/
structure UpdatePaymentMethodDto where
  name : Option String := none
  pmType : Option PaymentMethodType := none
  lastFourDigits : Option String := none
  bankName : Option String := none
  icon : Option String := none
  color : Option String := none
  balance : Option ℚ := none
  creditLimit : Option ℚ := none
  expirationDate : Option SimpleDate := none
  isDefault : Option Bool := none
  isActive : Option Bool := none
deriving Repr, DecidableEq

namespace PaymentMethodsService

/-- `findOne(userId, id)`: `where: {id, userId}`. -/
def findOne (s : St) (u : UserId) (id : EntityId) : Except ApiError PaymentMethod :=
  match s.paymentMethods.find? (fun m => m.id == id && m.userId == u) with
  | some m => Except.ok m
  | none => Except.error (ApiError.notFound "Método de pago no encontrado")

/-- `repository.update({userId, isDefault: true}, {isDefault: false})`. -/
def clearDefault (l : List PaymentMethod) (u : UserId) : List PaymentMethod :=
  l.map (fun m => if m.userId = u ∧ m.isDefault then { m with isDefault := false } else m)

/-- `repository.save` of an already-persisted method: update by primary key. -/
def saveById (l : List PaymentMethod) (m : PaymentMethod) : List PaymentMethod :=
  l.map (fun x => if x.id = m.id then m else x)

/-- `create(userId, dto)`.  `if (dto.isDefault)` is a JS truthiness check, so
an absent flag behaves like `false`; `balance` and `isActive` take the column
defaults (0, true) when absent. -/
def create (s : St) (u : UserId) (dto : CreatePaymentMethodDto) :
    Except ApiError (PaymentMethod × St) :=
  match s.paymentMethods.find? (fun m => m.name == dto.name && m.userId == u) with
  | some _ => Except.error (ApiError.conflict "Ya existe un método de pago con ese nombre")
  | none =>
    let pms := if dto.isDefault.getD false then clearDefault s.paymentMethods u
      else s.paymentMethods
    let pm : PaymentMethod := {
      id := s.nextId
      name := dto.name
      pmType := dto.pmType
      lastFourDigits := dto.lastFourDigits
      bankName := dto.bankName
      icon := dto.icon
      color := dto.color
      balance := dto.balance.getD 0
      creditLimit := dto.creditLimit
      expirationDate := dto.expirationDate
      isActive := true
      isDefault := dto.isDefault.getD false
      userId := u }
    Except.ok (pm, { s with
      paymentMethods := pms ++ [pm]
      nextId := s.nextId + 1
      cache := cacheDel s.cache ("payment-methods:" ++ u) })

/-- `Object.assign(paymentMethod, dto)`. -/
def applyUpdate (m : PaymentMethod) (dto : UpdatePaymentMethodDto) : PaymentMethod :=
  { m with
    name := dto.name.getD m.name
    pmType := dto.pmType.getD m.pmType
    lastFourDigits := overrideOpt dto.lastFourDigits m.lastFourDigits
    bankName := overrideOpt dto.bankName m.bankName
    icon := overrideOpt dto.icon m.icon
    color := overrideOpt dto.color m.color
    balance := dto.balance.getD m.balance
    creditLimit := overrideOpt dto.creditLimit m.creditLimit
    expirationDate := overrideOpt dto.expirationDate m.expirationDate
    isDefault := dto.isDefault.getD m.isDefault
    isActive := dto.isActive.getD m.isActive }

/-- `update(userId, id, dto)`: duplicate-name check (skipped when the name is
unchanged), then the clear-others-default step when `dto.isDefault` is truthy,
then assign and save. -/
def update (s : St) (u : UserId) (id : EntityId) (dto : UpdatePaymentMethodDto) :
    Except ApiError (PaymentMethod × St) :=
  match findOne s u id with
  | Except.error e => Except.error e
  | Except.ok paymentMethod =>
    if (match dto.name with
        | some n =>
          if n ≠ paymentMethod.name then
            (s.paymentMethods.find? (fun m => m.name == n && m.userId == u)).isSome
          else false
        | none => false : Bool) then
      Except.error (ApiError.conflict "Ya existe un método de pago con ese nombre")
    else
      Except.ok (applyUpdate paymentMethod dto, { s with
        paymentMethods := saveById
          (if dto.isDefault.getD false then clearDefault s.paymentMethods u
           else s.paymentMethods)
          (applyUpdate paymentMethod dto)
        cache := cacheDel (cacheDel s.cache ("payment-methods:" ++ u ++ ":true"))
          ("payment-methods:" ++ u ++ ":false") })

/-- The `hasExpenses` guard of `remove`: same TypeORM `getCount()` over a
LEFT JOIN as in `CategoriesService.removeGuardCount` — it counts distinct
payment-method rows matching `pm.id = :id`, not the joined expenses. -/
def removeGuardCount (s : St) (id : EntityId) : Nat :=
  (((s.paymentMethods.filter (fun m => m.id == id)).map (·.id)).dedup).length

/-- `remove(userId, id)`. -/
def remove (s : St) (u : UserId) (id : EntityId) : Except ApiError (Unit × St) :=
  match findOne s u id with
  | Except.error e => Except.error e
  | Except.ok paymentMethod =>
    if removeGuardCount s id > 0 then
      Except.error (ApiError.invalidOperation
        "No se puede eliminar un método de pago que tiene gastos asociados")
    else
      Except.ok ((), { s with
        paymentMethods := s.paymentMethods.filter (fun m => m.id != paymentMethod.id)
        cache := cacheDel (cacheDel s.cache ("payment-methods:" ++ u ++ ":true"))
          ("payment-methods:" ++ u ++ ":false") })

/-- `getDefault(userId)`: `findOne({userId, isDefault: true, isActive: true})`,
`null` when absent. -/
def getDefault (s : St) (u : UserId) : Option PaymentMethod :=
  s.paymentMethods.find? (fun m => m.userId == u && m.isDefault && m.isActive)

/-- `setDefault(userId, id)`: clear the default flag on all of the owner's
methods, then set it on the target and save. -/
def setDefault (s : St) (u : UserId) (id : EntityId) : Except ApiError (PaymentMethod × St) :=
  match findOne s u id with
  | Except.error e => Except.error e
  | Except.ok paymentMethod =>
    let pms := clearDefault s.paymentMethods u
    let updated := { paymentMethod with isDefault := true }
    Except.ok (updated, { s with
      paymentMethods := saveById pms updated
      cache := cacheDel (cacheDel s.cache ("payment-methods:" ++ u ++ ":true"))
        ("payment-methods:" ++ u ++ ":false") })

/-- The `operation` argument of `updateBalance`. -/
inductive BalanceOp where
  | add
  | subtract
deriving Repr, DecidableEq

/-- `updateBalance(userId, id, amount, operation)`: credit or debit the
method's running balance and save. -/
def updateBalance (s : St) (u : UserId) (id : EntityId) (amount : ℚ) (operation : BalanceOp) :
    Except ApiError (PaymentMethod × St) :=
  match findOne s u id with
  | Except.error e => Except.error e
  | Except.ok paymentMethod =>
    let updated := { paymentMethod with balance :=
      match operation with
      | BalanceOp.add => paymentMethod.balance + amount
      | BalanceOp.subtract => paymentMethod.balance - amount }
    Except.ok (updated, { s with paymentMethods := saveById s.paymentMethods updated })

end PaymentMethodsService

/-- `CreateExpenseDto` (after ValidationPipe with `whitelist: true`: exactly
these fields survive). -/
structure CreateExpenseDto where
  amount : ℚ
  description : String
  notes : Option String := none
  date : SimpleDate
  categoryId : EntityId
  paymentMethodId : EntityId
deriving Repr, DecidableEq

/-- `UpdateExpenseDto = PartialType(CreateExpenseDto)`. -/
structure UpdateExpenseDto where
  amount : Option ℚ := none
  description : Option String := none
  notes : Option String := none
  date : Option SimpleDate := none
  categoryId : Option EntityId := none
  paymentMethodId : Option EntityId := none
deriving Repr, DecidableEq

/-- The normalized data handed to `createFromOcr` (the receipt image itself is
consumed by the storage collaborator, whose upload result is passed along). -/
structure OcrExpenseData where
  amount : ℚ
  description : String
  date : SimpleDate
  paymentMethodId : EntityId
  categoryId : EntityId
  ocrData : Option String := none
deriving Repr, DecidableEq

/-- The normalized data handed to `createFromVoice`.  `audioUpload` is the
storage collaborator's `(url, key)` result when an audio file was provided. -/
structure VoiceExpenseData where
  amount : ℚ
  description : String
  date : SimpleDate
  paymentMethodId : EntityId
  categoryId : EntityId
  transcription : String
  audioUpload : Option (String × String) := none
deriving Repr, DecidableEq

namespace ExpensesService

/-- `expenses:summary:<userId>` — the summary cache key. -/
def summaryCacheKey (u : UserId) : String := "expenses:summary:" ++ u

/-- `invalidateCache(userId)`. -/
def invalidateCache (s : St) (u : UserId) : St :=
  { s with cache := cacheDel s.cache (summaryCacheKey u) }

/-- `findOne(userId, id)`: `where: {id, userId}`. -/
def findOne (s : St) (u : UserId) (id : EntityId) : Except ApiError Expense :=
  match s.expenses.find? (fun e => e.id == id && e.userId == u) with
  | some e => Except.ok e
  | none => Except.error (ApiError.notFound "Gasto no encontrado")

/-- `repository.save` of an already-persisted expense: update by primary key. -/
def saveById (l : List Expense) (e : Expense) : List Expense :=
  l.map (fun x => if x.id = e.id then e else x)

/-- The row persisted by the manual `create` (`repository.create({...dto, userId,
source: MANUAL})` with the DB-generated id). -/
def manualRow (nid : EntityId) (u : UserId) (dto : CreateExpenseDto) : Expense :=
  { id := nid
    amount := dto.amount
    description := dto.description
    notes := dto.notes
    date := dto.date
    source := ExpenseSource.manual
    userId := u
    categoryId := dto.categoryId
    paymentMethodId := dto.paymentMethodId }

/-- `create(userId, dto)`: validate category and payment method, persist the
expense (source = manual), debit the method, invalidate the summary cache. -/
def create (s : St) (u : UserId) (dto : CreateExpenseDto) : Except ApiError (Expense × St) :=
  match CategoriesService.findOne s u dto.categoryId with
  | Except.error e => Except.error e
  | Except.ok _ =>
  match PaymentMethodsService.findOne s u dto.paymentMethodId with
  | Except.error e => Except.error e
  | Except.ok _ =>
  match PaymentMethodsService.updateBalance
      { s with expenses := s.expenses ++ [manualRow s.nextId u dto], nextId := s.nextId + 1 }
      u dto.paymentMethodId dto.amount PaymentMethodsService.BalanceOp.subtract with
  | Except.error e => Except.error e
  | Except.ok (_, s2) => Except.ok (manualRow s.nextId u dto, invalidateCache s2 u)

/-- The row persisted by `createFromOcr` (source = ocr, receipt attached). -/
def ocrRow (nid : EntityId) (u : UserId) (data : OcrExpenseData)
    (uploadUrl uploadKey : String) : Expense :=
  { id := nid
    amount := data.amount
    description := data.description
    date := data.date
    source := ExpenseSource.ocr
    receiptUrl := some uploadUrl
    receiptS3Key := some uploadKey
    ocrData := data.ocrData
    userId := u
    categoryId := data.categoryId
    paymentMethodId := data.paymentMethodId }

/-- `createFromOcr(userId, data)`: like `create` but source = ocr with the
uploaded receipt reference attached. -/
def createFromOcr (s : St) (u : UserId) (data : OcrExpenseData) (uploadUrl uploadKey : String) :
    Except ApiError (Expense × St) :=
  match CategoriesService.findOne s u data.categoryId with
  | Except.error e => Except.error e
  | Except.ok _ =>
  match PaymentMethodsService.findOne s u data.paymentMethodId with
  | Except.error e => Except.error e
  | Except.ok _ =>
  match PaymentMethodsService.updateBalance
      { s with
        expenses := s.expenses ++ [ocrRow s.nextId u data uploadUrl uploadKey]
        nextId := s.nextId + 1 }
      u data.paymentMethodId data.amount PaymentMethodsService.BalanceOp.subtract with
  | Except.error e => Except.error e
  | Except.ok (_, s2) =>
    Except.ok (ocrRow s.nextId u data uploadUrl uploadKey, invalidateCache s2 u)

/-- The row persisted by `createFromVoice` (source = voice, transcription and
optional audio reference attached). -/
def voiceRow (nid : EntityId) (u : UserId) (data : VoiceExpenseData) : Expense :=
  { id := nid
    amount := data.amount
    description := data.description
    date := data.date
    source := ExpenseSource.voice
    voiceTranscription := some data.transcription
    voiceAudioUrl := data.audioUpload.map Prod.fst
    voiceAudioS3Key := data.audioUpload.map Prod.snd
    userId := u
    categoryId := data.categoryId
    paymentMethodId := data.paymentMethodId }

/-- `createFromVoice(userId, data)`: like `create` but source = voice with the
transcription and optional audio reference attached. -/
def createFromVoice (s : St) (u : UserId) (data : VoiceExpenseData) :
    Except ApiError (Expense × St) :=
  match CategoriesService.findOne s u data.categoryId with
  | Except.error e => Except.error e
  | Except.ok _ =>
  match PaymentMethodsService.findOne s u data.paymentMethodId with
  | Except.error e => Except.error e
  | Except.ok _ =>
  match PaymentMethodsService.updateBalance
      { s with expenses := s.expenses ++ [voiceRow s.nextId u data], nextId := s.nextId + 1 }
      u data.paymentMethodId data.amount PaymentMethodsService.BalanceOp.subtract with
  | Except.error e => Except.error e
  | Except.ok (_, s2) => Except.ok (voiceRow s.nextId u data, invalidateCache s2 u)

/-- `Object.assign(expense, updateExpenseDto)`. -/
def applyUpdate (e : Expense) (dto : UpdateExpenseDto) : Expense :=
  { e with
    amount := dto.amount.getD e.amount
    description := dto.description.getD e.description
    notes := overrideOpt dto.notes e.notes
    date := dto.date.getD e.date
    categoryId := dto.categoryId.getD e.categoryId
    paymentMethodId := dto.paymentMethodId.getD e.paymentMethodId }

/-- `update(userId, id, dto)`: load, re-validate changed references, save the
assigned row, then — when the amount or the payment method changed — credit
the old amount back to the old method and debit the new amount from the new
method, and invalidate the summary cache. -/
def update (s : St) (u : UserId) (id : EntityId) (dto : UpdateExpenseDto) :
    Except ApiError (Expense × St) :=
  match findOne s u id with
  | Except.error e => Except.error e
  | Except.ok expense =>
    match (match dto.categoryId with
           | some cid => (CategoriesService.findOne s u cid).map (fun _ => ())
           | none => Except.ok ()) with
    | Except.error e => Except.error e
    | Except.ok _ =>
    match (match dto.paymentMethodId with
           | some pid => (PaymentMethodsService.findOne s u pid).map (fun _ => ())
           | none => Except.ok ()) with
    | Except.error e => Except.error e
    | Except.ok _ =>
      if expense.amount ≠ (applyUpdate expense dto).amount ∨
          expense.paymentMethodId ≠ (applyUpdate expense dto).paymentMethodId then
        match PaymentMethodsService.updateBalance
            { s with expenses := saveById s.expenses (applyUpdate expense dto) }
            u expense.paymentMethodId expense.amount
            PaymentMethodsService.BalanceOp.add with
        | Except.error e => Except.error e
        | Except.ok (_, s2) =>
        match PaymentMethodsService.updateBalance s2 u
            (applyUpdate expense dto).paymentMethodId (applyUpdate expense dto).amount
            PaymentMethodsService.BalanceOp.subtract with
        | Except.error e => Except.error e
        | Except.ok (_, s3) => Except.ok (applyUpdate expense dto, invalidateCache s3 u)
      else
        Except.ok (applyUpdate expense dto,
          invalidateCache { s with expenses := saveById s.expenses (applyUpdate expense dto) } u)

/-- `remove(userId, id)`: credit the amount back to the linked method, delete
the attachment blobs (storage collaborator, not part of the ledger state),
delete the row, invalidate the summary cache. -/
def remove (s : St) (u : UserId) (id : EntityId) : Except ApiError (Unit × St) :=
  match findOne s u id with
  | Except.error e => Except.error e
  | Except.ok expense =>
    match PaymentMethodsService.updateBalance s u expense.paymentMethodId expense.amount
        PaymentMethodsService.BalanceOp.add with
    | Except.error e => Except.error e
    | Except.ok (_, s1) =>
      Except.ok ((), invalidateCache
        { s1 with expenses := s1.expenses.filter (fun e => e.id != expense.id) } u)

/-- `where: {userId}` — the owner's expense rows. -/
def userExpenses (s : St) (u : UserId) : List Expense :=
  s.expenses.filter (fun e => e.userId == u)

/-- `SUM(expense.amount)` (`parseFloat(null) || 0` makes the empty sum 0). -/
def sumAmounts (l : List Expense) : ℚ := (l.map (·.amount)).sum

/-- `SUM(amount)` over the owner's expenses with `date BETWEEN lo AND hi`. -/
def monthRangeSum (s : St) (u : UserId) (lo hi : SimpleDate) : ℚ :=
  sumAmounts ((userExpenses s u).filter (fun e => dateBetween e.date lo hi))

/-- The `byCategory` aggregation: GROUP BY category over the owner's expenses,
LEFT JOINed to the category columns.  The SQL ORDER BY `total DESC` only
permutes the rows; `percentage` is `none` exactly when the JS expression
`total / totalAmount * 100` divides by zero. -/
def byCategoryEntries (s : St) (u : UserId) (totalAmount : ℚ) : List CategorySummaryEntry :=
  let es := userExpenses s u
  ((es.map (·.categoryId)).dedup).map (fun cid =>
    let grp := es.filter (fun e => e.categoryId == cid)
    let cat := s.categories.find? (fun c => c.id == cid)
    { categoryId := cid
      categoryName := cat.map (·.name)
      categoryColor := cat.map (·.color)
      count := grp.length
      total := sumAmounts grp
      percentage := if totalAmount = 0 then none else some (sumAmounts grp / totalAmount * 100) })

/-- The `byPaymentMethod` aggregation, analogous to `byCategoryEntries`. -/
def byPaymentMethodEntries (s : St) (u : UserId) (totalAmount : ℚ) :
    List PaymentMethodSummaryEntry :=
  let es := userExpenses s u
  ((es.map (·.paymentMethodId)).dedup).map (fun pid =>
    let grp := es.filter (fun e => e.paymentMethodId == pid)
    let pm := s.paymentMethods.find? (fun m => m.id == pid)
    { paymentMethodId := pid
      paymentMethodName := pm.map (·.name)
      count := grp.length
      total := sumAmounts grp
      percentage := if totalAmount = 0 then none else some (sumAmounts grp / totalAmount * 100) })

/-- The summary as computed on a cache miss (everything in `getSummary` after
the cache lookup).  SQL `AVG` over no rows is NULL, turned into 0 by
`parseFloat(...) || 0`. -/
def computeSummary (s : St) (u : UserId) (now : SimpleDate) : ExpenseSummaryDto :=
  let es := userExpenses s u
  let totalAmount := sumAmounts es
  let currentMonth := monthRangeSum s u (startOfMonth now) (endOfMonth now)
  let lastMonth :=
    monthRangeSum s u (startOfMonth (subOneMonth now)) (endOfMonth (subOneMonth now))
  { totalExpenses := es.length
    totalAmount := totalAmount
    averageExpense := if es.length = 0 then 0 else totalAmount / (es.length : ℚ)
    currentMonthTotal := currentMonth
    lastMonthTotal := lastMonth
    percentageChange :=
      if lastMonth > 0 then (currentMonth - lastMonth) / lastMonth * 100 else 0
    byCategory := insertionSortBy (fun a b => decide (b.total ≤ a.total))
      (byCategoryEntries s u totalAmount)
    byPaymentMethod := insertionSortBy (fun a b => decide (b.total ≤ a.total))
      (byPaymentMethodEntries s u totalAmount) }

/-- `getSummary(userId)`: read-through cache with a 5-minute TTL (the TTL is
not modelled; only the explicit eviction in `invalidateCache` is). -/
def getSummary (s : St) (u : UserId) (now : SimpleDate) : ExpenseSummaryDto × St :=
  match cacheGet s.cache (summaryCacheKey u) with
  | some (CacheValue.summary v) => (v, s)
  | _ =>
    let summary := computeSummary s u now
    (summary, { s with cache := cacheSet s.cache (summaryCacheKey u) (CacheValue.summary summary) })

/-- `suggestCategory(userId, description)`: the owner's category literally
named "Otros", else the first of the owner's category list; `undefined`
(`none`) when the owner has no categories at all.  (Entity ids are uuids and
never falsy, so `a?.id || b?.id` is plain option-orelse here.) -/
def suggestCategory (s : St) (u : UserId) (_description : String) : Option EntityId × St :=
  let r := CategoriesService.findAll s u
  let othersCategory := r.1.find? (fun c => c.name == "Otros")
  (match othersCategory with
   | some c => some c.id
   | none => (r.1.head?).map (·.id), r.2)

/-- The fixed hint-to-category-name vocabulary of `suggestCategoryFromHint`. -/
def categoryMap : List (String × String) :=
  [("comida", "Comida"), ("transporte", "Transporte"),
   ("entretenimiento", "Entretenimiento"), ("salud", "Salud"),
   ("educacion", "Educación"), ("compras", "Compras"), ("servicios", "Servicios")]

/-- `suggestCategoryFromHint(userId, hint?)`.  `if (!hint)` treats both an
absent hint and the empty string as missing. -/
def suggestCategoryFromHint (s : St) (u : UserId) (hint : Option String) :
    Option EntityId × St :=
  match hint with
  | none => suggestCategory s u ""
  | some h =>
    if h = "" then suggestCategory s u ""
    else
      let r := CategoriesService.findAll s u
      match (categoryMap.find? (fun kv => kv.1 == h.toLower)).map (·.2) with
      | some categoryName =>
        match r.1.find? (fun c => c.name == categoryName) with
        | some category => (some category.id, r.2)
        | none => suggestCategory r.2 u ""
      | none => suggestCategory r.2 u ""

end ExpensesService

/-- One Expense Ledger mutation as invoked through the API (the three
creation paths, update, delete). -/
inductive LedgerOp where
  | createManual (u : UserId) (dto : CreateExpenseDto)
  | createOcr (u : UserId) (data : OcrExpenseData) (uploadUrl uploadKey : String)
  | createVoice (u : UserId) (data : VoiceExpenseData)
  | updateExp (u : UserId) (id : EntityId) (dto : UpdateExpenseDto)
  | removeExp (u : UserId) (id : EntityId)
deriving Repr, DecidableEq

/-- The authenticated owner performing the ledger operation. -/
def LedgerOp.user : LedgerOp → UserId
  | LedgerOp.createManual u _ => u
  | LedgerOp.createOcr u _ _ _ => u
  | LedgerOp.createVoice u _ => u
  | LedgerOp.updateExp u _ _ => u
  | LedgerOp.removeExp u _ => u

/-- Run one ledger operation, keeping only the resulting state. -/
def applyLedgerOp (s : St) : LedgerOp → Except ApiError St
  | LedgerOp.createManual u dto => (ExpensesService.create s u dto).map (·.2)
  | LedgerOp.createOcr u data url key => (ExpensesService.createFromOcr s u data url key).map (·.2)
  | LedgerOp.createVoice u data => (ExpensesService.createFromVoice s u data).map (·.2)
  | LedgerOp.updateExp u id dto => (ExpensesService.update s u id dto).map (·.2)
  | LedgerOp.removeExp u id => (ExpensesService.remove s u id).map (·.2)

/-- Run one ledger operation; a raised error leaves the state as it was.
(In the code every throw of these operations happens before their first
write — validation reads — as long as the state is `WellFormed`, see
`updateBalance_ok_of_ref`; so discarding the error matches the code.) -/
def runLedgerOp (s : St) (op : LedgerOp) : St :=
  match applyLedgerOp s op with
  | Except.ok s1 => s1
  | Except.error _ => s

/-- Run a finite sequence of ledger operations. -/
def runLedgerOps (s : St) (ops : List LedgerOp) : St := ops.foldl runLedgerOp s

/-- Sum of balances of the payment-method rows with the given id (with unique
ids: that method's balance, or 0 if absent). -/
def pmBalanceSum (s : St) (pid : EntityId) : ℚ :=
  ((s.paymentMethods.filter (fun m => m.id == pid)).map (·.balance)).sum

/-- Sum of the amounts of the currently-live expenses charged against the
given payment method. -/
def liveSum (s : St) (pid : EntityId) : ℚ :=
  ((s.expenses.filter (fun e => e.paymentMethodId == pid)).map (·.amount)).sum

/-- Structural well-formedness guaranteed by the DB and the service layer:
unique primary keys, freshness of the id generator, and referential integrity
of expenses towards their owner's payment methods (`create` and `update`
validate the reference; `PaymentMethodsService.remove` never removes a
referenced method). -/
@[reducible] def WellFormed (s : St) : Prop :=
  ((s.paymentMethods.map (·.id)).Nodup ∧ (s.expenses.map (·.id)).Nodup) ∧
  (∀ e ∈ s.expenses, ∃ pm ∈ s.paymentMethods, pm.id = e.paymentMethodId ∧ pm.userId = e.userId) ∧
  (∀ pm ∈ s.paymentMethods, pm.id < s.nextId) ∧
  (∀ e ∈ s.expenses, e.id < s.nextId)

/-- All stored expense amounts are positive (`@Min(0.01)` on every ingestion
DTO keeps this true in reachable states). -/
@[reducible] def PositiveAmounts (s : St) : Prop := ∀ e ∈ s.expenses, 0 < e.amount

/-- The class-validator guards on the ingestion DTOs: every supplied amount is
at least 0.01. -/
@[reducible] def LedgerOp.Valid : LedgerOp → Prop
  | LedgerOp.createManual _ dto => (1 : ℚ)/100 ≤ dto.amount
  | LedgerOp.createOcr _ data _ _ => (1 : ℚ)/100 ≤ data.amount
  | LedgerOp.createVoice _ data => (1 : ℚ)/100 ≤ data.amount
  | LedgerOp.updateExp _ _ dto => ∀ a, dto.amount = some a → (1 : ℚ)/100 ≤ a
  | LedgerOp.removeExp _ _ => True

/-- One PaymentMethodsService mutation relevant to the default flag. -/
inductive PmOp where
  | createPm (u : UserId) (dto : CreatePaymentMethodDto)
  | updatePm (u : UserId) (id : EntityId) (dto : UpdatePaymentMethodDto)
  | setDefaultPm (u : UserId) (id : EntityId)
deriving Repr, DecidableEq

/-- Run one payment-method operation, keeping only the resulting state. -/
def applyPmOp (s : St) : PmOp → Except ApiError St
  | PmOp.createPm u dto => (PaymentMethodsService.create s u dto).map (·.2)
  | PmOp.updatePm u id dto => (PaymentMethodsService.update s u id dto).map (·.2)
  | PmOp.setDefaultPm u id => (PaymentMethodsService.setDefault s u id).map (·.2)

/-- Run one payment-method operation; a raised error (which in these three
operations always precedes the first write) leaves the state as it was. -/
def runPmOp (s : St) (op : PmOp) : St :=
  match applyPmOp s op with
  | Except.ok s1 => s1
  | Except.error _ => s

/-- Run a finite sequence of payment-method operations. -/
def runPmOps (s : St) (ops : List PmOp) : St := ops.foldl runPmOp s

/-- Number of the owner's methods with `isDefault = true`. -/
def defaultCount (s : St) (u : UserId) : Nat :=
  (s.paymentMethods.filter (fun m => m.userId == u && m.isDefault)).length

/-- The at-most-one-default invariant, for every owner that has any method. -/
@[reducible] def AtMostOneDefault (s : St) : Prop :=
  ∀ m ∈ s.paymentMethods, defaultCount s m.userId ≤ 1

/-- Unique payment-method primary keys and id-generator freshness. -/
@[reducible] def PmWellFormed (s : St) : Prop :=
  (s.paymentMethods.map (·.id)).Nodup ∧ ∀ m ∈ s.paymentMethods, m.id < s.nextId

/-- Position of the first occurrence of an id in a list. -/
def posOf : List EntityId → EntityId → Option Nat
  | [], _ => none
  | x :: xs, a => if x = a then some 0 else (posOf xs a).map (· + 1)

/-- The balance produced by `updateBalance` (credit adds, debit subtracts). -/
def balanceAfter (op : PaymentMethodsService.BalanceOp) (b amt : ℚ) : ℚ :=
  match op with
  | PaymentMethodsService.BalanceOp.add => b + amt
  | PaymentMethodsService.BalanceOp.subtract => b - amt

/-- The fallback of `suggestCategory`: the category literally named "Otros",
else the first category of the visible list (none when the list is empty). -/
def fallbackCategoryId (cats : List Category) : Option EntityId :=
  match cats.find? (fun c => c.name == "Otros") with
  | some c => some c.id
  | none => (cats.head?).map (·.id)

/-- Specification-side restatement of the (amended) category-suggestion rule,
as a pure function of the owner's visible category list: lowercase the hint,
map it through the fixed Spanish vocabulary, return the first category with
the mapped name, and otherwise fall back to "Otros" / first category. -/
def suggestHintSpec (cats : List Category) (hint : Option String) : Option EntityId :=
  match hint with
  | none => fallbackCategoryId cats
  | some h =>
    if h = "" then fallbackCategoryId cats
    else
      match (ExpensesService.categoryMap.find? (fun kv => kv.1 == h.toLower)).map (·.2) with
      | some nm =>
        match cats.find? (fun c => c.name == nm) with
        | some c => some c.id
        | none => fallbackCategoryId cats
      | none => fallbackCategoryId cats

/-!  Concrete fixtures used to instantiate the theorems below on the spec's
scenario examples. -/

/-- An owned category (fixture). -/
def foodCategory : Category :=
  { id := 0, name := "Comida", color := "#FF6B6B", isSystem := false,
    orderIndex := 0, userId := some "u" }

/-- A cash payment method with initial balance 100.00 (fixture). -/
def cashMethod : PaymentMethod :=
  { id := 1, name := "Cash", pmType := PaymentMethodType.cash, balance := 100,
    isActive := true, isDefault := false, userId := "u" }

/-- Owner "u" with one category, one method with balance 100.00, no expenses. -/
def baseState : St :=
  { categories := [foodCategory], paymentMethods := [cashMethod], expenses := [],
    cache := [], nextId := 2 }

/-- A concrete calendar date (fixture). -/
def novDate : SimpleDate := { year := 2024, month := 11, day := 8 }

/-- Scenario examples 1-3 of the spec: create a 30.00 expense, update its
amount to 50.00, delete it. -/
def scenarioOps : List LedgerOp :=
  [LedgerOp.createManual "u"
    { amount := 30, description := "Compras", date := novDate, categoryId := 0,
      paymentMethodId := 1 },
   LedgerOp.updateExp "u" 2 { amount := some 50 },
   LedgerOp.removeExp "u" 2]

/-- A concrete manual-creation operation (fixture). -/
def demoCreateOp : LedgerOp :=
  LedgerOp.createManual "u"
    { amount := 30, description := "Compras", date := novDate, categoryId := 0,
      paymentMethodId := 1 }

/-- Payment method "A" (fixture for scenario example 4). -/
def methodA : PaymentMethod :=
  { id := 1, name := "A", pmType := PaymentMethodType.cash, balance := 0,
    isActive := true, isDefault := false, userId := "u" }

/-- Payment method "B" (fixture for scenario example 4). -/
def methodB : PaymentMethod :=
  { id := 2, name := "B", pmType := PaymentMethodType.cash, balance := 0,
    isActive := true, isDefault := false, userId := "u" }

/-- Owner "u" with the two methods A and B, none default. -/
def twoMethodsState : St :=
  { categories := [], paymentMethods := [methodA, methodB], expenses := [],
    cache := [], nextId := 3 }

/-- Scenario example 4: set A default, then set B default. -/
def defaultOps : List PmOp := [PmOp.setDefaultPm "u" 1, PmOp.setDefaultPm "u" 2]

/-- A category of owner "u" sorting first in the list (fixture for the
category-suggestion counterexample). -/
def alphaCategory : Category :=
  { id := 0, name := "Alpha", color := "#000000", isSystem := false,
    orderIndex := 0, userId := some "u" }

/-- A category of owner "u" literally named "Other" (fixture). -/
def otherCategory : Category :=
  { id := 1, name := "Other", color := "#111111", isSystem := false,
    orderIndex := 1, userId := some "u" }

/-- Owner "u" has a category literally named "Other", but it is not the first
of the list. -/
def englishOtherState : St :=
  { categories := [alphaCategory, otherCategory], paymentMethods := [],
    expenses := [], cache := [], nextId := 2 }

/-- A non-system category owned by another user "v" (fixture for the reorder
counterexample). -/
def foreignCategory : Category :=
  { id := 5, name := "Ajena", color := "#222222", isSystem := false,
    orderIndex := 0, userId := some "v" }

/-- State in which id 5 belongs to "v", not to the caller "u". -/
def foreignState : St :=
  { categories := [foreignCategory], paymentMethods := [], expenses := [],
    cache := [], nextId := 6 }

/-- Two categories owned by "u" plus one system category (reorder fixture). -/
def reorderState : St :=
  { categories :=
      [{ id := 1, name := "P", color := "#000000", isSystem := false,
         orderIndex := 7, userId := some "u" },
       { id := 2, name := "Q", color := "#000000", isSystem := false,
         orderIndex := 9, userId := some "u" },
       { id := 3, name := "Sys", color := "#000000", isSystem := true,
         orderIndex := 4, userId := none }],
    paymentMethods := [], expenses := [], cache := [], nextId := 4 }

/-- A deactivated method that still carries the default flag (fixture). -/
def inactiveDefaultMethod : PaymentMethod :=
  { id := 1, name := "Card", pmType := PaymentMethodType.creditCard, balance := 0,
    isActive := false, isDefault := true, userId := "u" }

/-- Owner "u" whose only (default) method has been deactivated. -/
def inactiveDefaultState : St :=
  { categories := [], paymentMethods := [inactiveDefaultMethod], expenses := [],
    cache := [], nextId := 2 }

/-- A voice-sourced expense with attachments (fixture for the update frame). -/
def voiceExpense : Expense :=
  { id := 2, amount := 30, description := "Compras", date := novDate,
    source := ExpenseSource.voice, voiceTranscription := some "treinta",
    voiceAudioUrl := some "https://s3/a.mp3", voiceAudioS3Key := some "a.mp3",
    userId := "u", categoryId := 0, paymentMethodId := 1 }

/-- `baseState` with `voiceExpense` recorded and the balance already debited. -/
def voiceExpenseState : St :=
  { categories := [foodCategory],
    paymentMethods := [{ cashMethod with balance := 70 }],
    expenses := [voiceExpense], cache := [], nextId := 3 }

/-! ### Generic list bookkeeping lemmas -/

theorem sum_map_add_distrib {α : Type} (l : List α) (f g : α → ℚ) :
    (l.map (fun x => f x + g x)).sum = (l.map f).sum + (l.map g).sum := by
  induction l with
  | nil => simp
  | cons a t ih => simp only [List.map_cons, List.sum_cons, ih]; ring

theorem sum_map_sub_distrib {α : Type} (l : List α) (f g : α → ℚ) :
    (l.map (fun x => f x - g x)).sum = (l.map f).sum - (l.map g).sum := by
  induction l with
  | nil => simp
  | cons a t ih => simp only [List.map_cons, List.sum_cons, ih]; ring

theorem sum_map_filter_eq {α : Type} (l : List α) (p : α → Bool) (f : α → ℚ) :
    ((l.filter p).map f).sum = (l.map (fun x => if p x then f x else 0)).sum := by
  induction l with
  | nil => simp
  | cons a t ih =>
    by_cases h : p a <;> simp [List.filter_cons, h, ih]

theorem sum_map_zero_of {α : Type} (l : List α) (f : α → ℚ) (h : ∀ x ∈ l, f x = 0) :
    (l.map f).sum = 0 := by
  induction l with
  | nil => simp
  | cons a t ih =>
    simp only [List.map_cons, List.sum_cons]
    rw [h a (by simp), ih (fun x hx => h x (by simp [hx]))]
    ring

theorem keyUnique {α : Type} (key : α → Nat) {l : List α} (h : (l.map key).Nodup)
    {x y : α} (hx : x ∈ l) (hy : y ∈ l) (hk : key x = key y) : x = y := by
  induction l with
  | nil => cases hx
  | cons a t ih =>
    rw [List.map_cons, List.nodup_cons] at h
    rcases List.mem_cons.mp hx with rfl | hx2
    · rcases List.mem_cons.mp hy with rfl | hy2
      · rfl
      · exact absurd (hk ▸ List.mem_map_of_mem key hy2) h.1
    · rcases List.mem_cons.mp hy with rfl | hy2
      · exact absurd (hk ▸ List.mem_map_of_mem key hx2) h.1
      · exact ih h.2 hx2 hy2

theorem sum_map_ite_key {α : Type} (key : α → Nat) (f : α → ℚ) (k : Nat) {l : List α}
    (hnd : (l.map key).Nodup) {a : α} (ha : a ∈ l) (hk : key a = k) :
    (l.map (fun x => if key x = k then f x else 0)).sum = f a := by
  induction l with
  | nil => cases ha
  | cons b t ih =>
    rw [List.map_cons, List.nodup_cons] at hnd
    simp only [List.map_cons, List.sum_cons]
    rcases List.mem_cons.mp ha with rfl | ha2
    · rw [if_pos hk]
      have hz : (t.map (fun x => if key x = k then f x else 0)).sum = 0 := by
        refine sum_map_zero_of _ _ (fun x hx => ?_)
        rw [if_neg]
        intro hxk
        exact hnd.1 (hxk.trans hk.symm ▸ List.mem_map_of_mem key hx)
      rw [hz]; ring
    · have hbk : key b ≠ k := by
        intro hbk
        exact hnd.1 ((hbk.trans hk.symm) ▸ List.mem_map_of_mem key ha2)
      rw [if_neg hbk, ih hnd.2 ha2]
      ring

theorem sum_map_ite_key_zero {α : Type} (key : α → Nat) (f : α → ℚ) (k : Nat)
    {l : List α} (h : ∀ x ∈ l, key x ≠ k) :
    (l.map (fun x => if key x = k then f x else 0)).sum = 0 :=
  sum_map_zero_of _ _ (fun x hx => if_neg (h x hx))

theorem sum_map_replace_key {α : Type} (key : α → Nat) (f : α → ℚ) {l : List α}
    (hnd : (l.map key).Nodup) {m0 mN : α} (hm : m0 ∈ l) (hid : key m0 = key mN) :
    ((l.map (fun x => if key x = key mN then mN else x)).map f).sum
      = (l.map f).sum + (f mN - f m0) := by
  rw [List.map_map]
  have hcong : l.map (f ∘ fun x => if key x = key mN then mN else x)
      = l.map (fun x => f x + (if key x = key mN then f mN - f x else 0)) := by
    refine List.map_congr_left (fun x _ => ?_)
    by_cases h : key x = key mN
    · simp only [Function.comp_apply, if_pos h]; ring
    · simp only [Function.comp_apply, if_neg h]; ring
  rw [hcong, sum_map_add_distrib,
    sum_map_ite_key key (fun x => f mN - f x) (key mN) hnd hm hid]

theorem sum_map_filter_ne_key {α : Type} (key : α → Nat) (f : α → ℚ) {l : List α}
    (hnd : (l.map key).Nodup) {m0 : α} (hm : m0 ∈ l) :
    (((l.filter (fun x => key x != key m0))).map f).sum = (l.map f).sum - f m0 := by
  rw [sum_map_filter_eq]
  have hcong : l.map (fun x => if (key x != key m0) then f x else 0)
      = l.map (fun x => f x - (if key x = key m0 then f x else 0)) := by
    refine List.map_congr_left (fun x _ => ?_)
    by_cases h : key x = key m0 <;> simp [h]
  rw [hcong, sum_map_sub_distrib, sum_map_ite_key key f (key m0) hnd hm rfl]

theorem length_filter_le_of_imp {α : Type} {l : List α} (p q : α → Bool)
    (h : ∀ x ∈ l, p x = true → q x = true) :
    (l.filter p).length ≤ (l.filter q).length := by
  induction l with
  | nil => simp
  | cons a t ih =>
    have ht := ih (fun x hx => h x (by simp [hx]))
    by_cases hp : p a
    · rw [List.filter_cons, if_pos hp, List.filter_cons, if_pos (h a (by simp) hp)]
      simpa using ht
    · rw [List.filter_cons, if_neg hp]
      by_cases hq : q a
      · rw [List.filter_cons, if_pos hq]
        exact le_trans ht (by simp)
      · rw [List.filter_cons, if_neg hq]
        exact ht

theorem filter_key_eq_nil {α : Type} (key : α → Nat) (k : Nat) {l : List α}
    (h : ∀ x ∈ l, key x ≠ k) : l.filter (fun x => key x == k) = [] := by
  induction l with
  | nil => rfl
  | cons a t ih =>
    rw [List.filter_cons, if_neg (by simp [h a (by simp)])]
    exact ih (fun x hx => h x (by simp [hx]))

theorem filter_key_eq_singleton {α : Type} (key : α → Nat) (k : Nat) {l : List α}
    (hnd : (l.map key).Nodup) {a : α} (ha : a ∈ l) (hk : key a = k) :
    l.filter (fun x => key x == k) = [a] := by
  induction l with
  | nil => cases ha
  | cons b t ih =>
    rw [List.map_cons, List.nodup_cons] at hnd
    rcases List.mem_cons.mp ha with rfl | ha2
    · rw [List.filter_cons, if_pos (by simp [hk])]
      rw [filter_key_eq_nil key k (fun x hx hxk => hnd.1 ((hxk.trans hk.symm) ▸ List.mem_map_of_mem key hx))]
    · have hbk : key b ≠ k := fun hbk =>
        hnd.1 ((hbk.trans hk.symm) ▸ List.mem_map_of_mem key ha2)
      rw [List.filter_cons, if_neg (by simp [hbk]), ih hnd.2 ha2]

theorem sum_filter_map_append {α : Type} (l : List α) (e : α) (p : α → Bool) (g : α → ℚ) :
    (((l ++ [e]).filter p).map g).sum
      = ((l.filter p).map g).sum + (if p e then g e else 0) := by
  rw [List.filter_append]
  by_cases h : p e <;> simp [h]

theorem sum_filter_map_replace {α : Type} (key : α → Nat) (p : α → Bool) (g : α → ℚ)
    {l : List α} (hnd : (l.map key).Nodup) {m0 mN : α} (hm : m0 ∈ l)
    (hid : key m0 = key mN) :
    (((l.map (fun x => if key x = key mN then mN else x)).filter p).map g).sum
      = ((l.filter p).map g).sum
        + ((if p mN then g mN else 0) - (if p m0 then g m0 else 0)) := by
  rw [sum_map_filter_eq, sum_map_filter_eq,
    sum_map_replace_key key (fun x => if p x then g x else 0) hnd hm hid]

theorem sum_filter_map_remove {α : Type} (key : α → Nat) (p : α → Bool) (g : α → ℚ)
    {l : List α} (hnd : (l.map key).Nodup) {m0 : α} (hm : m0 ∈ l) :
    (((l.filter (fun x => key x != key m0)).filter p).map g).sum
      = ((l.filter p).map g).sum - (if p m0 then g m0 else 0) := by
  have h1 : (((l.filter (fun x => key x != key m0)).filter p).map g).sum
      = (l.map (fun x => if (key x != key m0) then (if p x then g x else 0) else 0)).sum := by
    rw [sum_map_filter_eq, sum_map_filter_eq]
  rw [h1, sum_map_filter_eq l p g]
  have hcong : l.map (fun x => if (key x != key m0) then (if p x then g x else 0) else 0)
      = l.map (fun x => (if p x then g x else 0)
          - (if key x = key m0 then (if p x then g x else 0) else 0)) := by
    refine List.map_congr_left (fun x _ => ?_)
    by_cases h : key x = key m0 <;> simp [h]
  rw [hcong, sum_map_sub_distrib,
    sum_map_ite_key key (fun x => if p x then g x else 0) (key m0) hnd hm rfl]

theorem map_attr_replace {α β : Type} (key : α → Nat) (attr : α → β) {l : List α}
    {mN : α} (h : ∀ x ∈ l, key x = key mN → attr x = attr mN) :
    (l.map (fun x => if key x = key mN then mN else x)).map attr = l.map attr := by
  rw [List.map_map]
  refine List.map_congr_left (fun x hx => ?_)
  by_cases hk : key x = key mN
  · simp only [Function.comp_apply, if_pos hk]
    exact (h x hx hk).symm
  · simp only [Function.comp_apply, if_neg hk]

/-! ### Inversion lemmas for the service operations -/

theorem pmFindOne_ok {s : St} {u : UserId} {id : EntityId} {m : PaymentMethod}
    (h : PaymentMethodsService.findOne s u id = Except.ok m) :
    m ∈ s.paymentMethods ∧ m.id = id ∧ m.userId = u := by
  unfold PaymentMethodsService.findOne at h
  split at h
  next m0 hf =>
    cases h
    have hp := List.find?_some hf
    simp only [Bool.and_eq_true, beq_iff_eq] at hp
    exact ⟨List.mem_of_find?_eq_some hf, hp.1, hp.2⟩
  next => cases h

theorem pmFindOne_ok_of_mem {s : St} {u : UserId} {id : EntityId}
    (h : ∃ m ∈ s.paymentMethods, m.id = id ∧ m.userId = u) :
    ∃ m, PaymentMethodsService.findOne s u id = Except.ok m := by
  obtain ⟨m, hm, hid, hu⟩ := h
  unfold PaymentMethodsService.findOne
  split
  next m0 _ => exact ⟨m0, rfl⟩
  next hf =>
    have : s.paymentMethods.find? (fun m => m.id == id && m.userId == u) ≠ none := by
      rw [Ne, List.find?_eq_none]
      push_neg
      exact ⟨m, hm, by simp [hid, hu]⟩
    exact absurd hf this

theorem catFindOne_ok {s : St} {u : UserId} {id : EntityId} {c : Category}
    (h : CategoriesService.findOne s u id = Except.ok c) :
    c ∈ s.categories ∧ c.id = id ∧ (c.userId = some u ∨ c.isSystem = true) := by
  unfold CategoriesService.findOne at h
  split at h
  next c0 hf =>
    cases h
    have hp := List.find?_some hf
    simp only [Bool.and_eq_true, Bool.or_eq_true, beq_iff_eq] at hp
    exact ⟨List.mem_of_find?_eq_some hf, hp.1, hp.2⟩
  next => cases h

theorem expFindOne_ok {s : St} {u : UserId} {id : EntityId} {e : Expense}
    (h : ExpensesService.findOne s u id = Except.ok e) :
    e ∈ s.expenses ∧ e.id = id ∧ e.userId = u := by
  unfold ExpensesService.findOne at h
  split at h
  next e0 hf =>
    cases h
    have hp := List.find?_some hf
    simp only [Bool.and_eq_true, beq_iff_eq] at hp
    exact ⟨List.mem_of_find?_eq_some hf, hp.1, hp.2⟩
  next => cases h

/-- Inversion of a successful `updateBalance`: the method row is replaced by
one whose balance was credited/debited; nothing else changes. -/
theorem updateBalance_ok_elim {s : St} {u : UserId} {pid : EntityId} {amt : ℚ}
    {op : PaymentMethodsService.BalanceOp} {mN : PaymentMethod} {s1 : St}
    (h : PaymentMethodsService.updateBalance s u pid amt op = Except.ok (mN, s1)) :
    ∃ m0 ∈ s.paymentMethods, m0.id = pid ∧ m0.userId = u ∧
      mN = { m0 with balance := balanceAfter op m0.balance amt } ∧
      s1 = { s with paymentMethods := PaymentMethodsService.saveById s.paymentMethods mN } := by
  unfold PaymentMethodsService.updateBalance at h
  split at h
  next e => cases h
  next m0 hfind =>
    obtain ⟨hm, hid, hu⟩ := pmFindOne_ok hfind
    refine ⟨m0, hm, hid, hu, ?_⟩
    cases h
    cases op <;> exact ⟨rfl, rfl⟩

/-- With referential integrity, `updateBalance` cannot fail: the method it is
pointed at exists and belongs to the caller.  (This is why every error raised
by the expense operations happens before their first write.) -/
theorem updateBalance_ok_of_ref {s : St} {u : UserId} {pid : EntityId} (amt : ℚ)
    (op : PaymentMethodsService.BalanceOp)
    (h : ∃ m ∈ s.paymentMethods, m.id = pid ∧ m.userId = u) :
    ∃ r, PaymentMethodsService.updateBalance s u pid amt op = Except.ok r := by
  obtain ⟨m, hfind⟩ := pmFindOne_ok_of_mem h
  unfold PaymentMethodsService.updateBalance
  rw [hfind]
  exact ⟨_, rfl⟩

theorem mem_replace_elim {α : Type} (key : α → Nat) {l : List α} {mN x : α}
    (hx : x ∈ l.map (fun y => if key y = key mN then mN else y)) : x = mN ∨ x ∈ l := by
  obtain ⟨y, hy, hxy⟩ := List.mem_map.mp hx
  by_cases hk : key y = key mN
  · rw [if_pos hk] at hxy
    exact Or.inl hxy.symm
  · rw [if_neg hk] at hxy
    exact Or.inr (hxy ▸ hy)

theorem pair_transfer {l l1 : List PaymentMethod}
    (hpair : l1.map (fun m => (m.id, m.userId)) = l.map (fun m => (m.id, m.userId)))
    {pid : EntityId} {uid : UserId} (h : ∃ m ∈ l, m.id = pid ∧ m.userId = uid) :
    ∃ m ∈ l1, m.id = pid ∧ m.userId = uid := by
  obtain ⟨m, hm, hid, hu⟩ := h
  have hmem : (pid, uid) ∈ l1.map (fun m => (m.id, m.userId)) := by
    rw [hpair]
    exact List.mem_map.mpr ⟨m, hm, by rw [hid, hu]⟩
  obtain ⟨m1, hm1, hp⟩ := List.mem_map.mp hmem
  simp only [Prod.mk.injEq] at hp
  exact ⟨m1, hm1, hp.1, hp.2⟩

theorem id_bound_transfer {l l1 : List PaymentMethod}
    (hids : l1.map (fun m => (m.id, m.userId)) = l.map (fun m => (m.id, m.userId)))
    {n : Nat} (h : ∀ m ∈ l, m.id < n) : ∀ m ∈ l1, m.id < n := by
  intro m1 hm1
  have hmem : (m1.id, m1.userId) ∈ l.map (fun m => (m.id, m.userId)) := by
    rw [← hids]
    exact List.mem_map.mpr ⟨m1, hm1, rfl⟩
  obtain ⟨m, hm, hp⟩ := List.mem_map.mp hmem
  simp only [Prod.mk.injEq] at hp
  exact hp.1 ▸ h m hm

theorem nodup_ids_transfer {l l1 : List PaymentMethod}
    (hids : l1.map (fun m => (m.id, m.userId)) = l.map (fun m => (m.id, m.userId)))
    (h : (l.map (fun m => m.id)).Nodup) : (l1.map (fun m => m.id)).Nodup := by
  have h1 : l1.map (fun m => m.id)
      = (l1.map (fun m => (m.id, m.userId))).map Prod.fst := by
    rw [List.map_map]; rfl
  have h2 : l.map (fun m => m.id)
      = (l.map (fun m => (m.id, m.userId))).map Prod.fst := by
    rw [List.map_map]; rfl
  rw [h1, hids, ← h2]
  exact h

/-- Full effect of a successful `updateBalance` call: only the target method's
balance changes (by `amount` with the operation's sign); categories, expenses,
cache, the id generator and every method's identity and owner are untouched. -/
theorem updateBalance_effect {s : St} {u : UserId} {pid : EntityId} {amt : ℚ}
    {op : PaymentMethodsService.BalanceOp} {mN : PaymentMethod} {s1 : St}
    (hnd : (s.paymentMethods.map (fun m => m.id)).Nodup)
    (h : PaymentMethodsService.updateBalance s u pid amt op = Except.ok (mN, s1)) :
    s1.categories = s.categories ∧ s1.expenses = s.expenses ∧ s1.cache = s.cache ∧
    s1.nextId = s.nextId ∧
    s1.paymentMethods.map (fun m => (m.id, m.userId))
      = s.paymentMethods.map (fun m => (m.id, m.userId)) ∧
    ∀ q, pmBalanceSum s1 q
      = pmBalanceSum s q + (if pid = q then balanceAfter op 0 amt else 0) := by
  obtain ⟨m0, hm, hid, hu, hmN, hs1⟩ := updateBalance_ok_elim h
  have hidN : m0.id = mN.id := by rw [hmN]
  subst hs1
  refine ⟨rfl, rfl, rfl, rfl, ?_, ?_⟩
  · unfold PaymentMethodsService.saveById
    refine map_attr_replace (fun m => m.id) (fun (m : PaymentMethod) => (m.id, m.userId))
      (fun x hx hxk => ?_)
    have hx0 : x = m0 := keyUnique (fun m => m.id) hnd hx hm (hxk.trans hidN.symm)
    subst hx0
    rw [hmN]
  · intro q
    unfold pmBalanceSum PaymentMethodsService.saveById
    have heff := sum_filter_map_replace (fun m => m.id) (fun m => m.id == q)
      (fun m => m.balance) hnd hm hidN
    simp only at heff
    rw [heff]
    have hq : mN.id = pid := by rw [← hidN, hid]
    by_cases hpq : pid = q
    · rw [if_pos hpq]
      have h1 : (mN.id == q) = true := by simp [hq, hpq]
      have h2 : (m0.id == q) = true := by simp [hid, hpq]
      rw [if_pos h1, if_pos h2, hmN]
      cases op <;> simp [balanceAfter]
    · rw [if_neg hpq]
      have h1 : (mN.id == q) = false := by simp [hq, hpq]
      have h2 : (m0.id == q) = false := by simp [hid, hpq]
      rw [if_neg (by simp [h1]), if_neg (by simp [h2])]
      ring

/-- Inversion of a successful manual `create`: the persisted row carries the
DTO data under a fresh id, and the final state debits the referenced method
of the new state (row appended, id consumed) before evicting the summary. -/
theorem expCreate_ok_elim {s : St} {u : UserId} {dto : CreateExpenseDto}
    {e1 : Expense} {s1 : St}
    (h : ExpensesService.create s u dto = Except.ok (e1, s1)) :
    e1.id = s.nextId ∧ e1.amount = dto.amount ∧ e1.userId = u ∧
    e1.paymentMethodId = dto.paymentMethodId ∧ e1.categoryId = dto.categoryId ∧
    e1.source = ExpenseSource.manual ∧
    ∃ mN sMid, PaymentMethodsService.updateBalance
        { s with expenses := s.expenses ++ [e1], nextId := s.nextId + 1 }
        u dto.paymentMethodId dto.amount PaymentMethodsService.BalanceOp.subtract
        = Except.ok (mN, sMid) ∧
      s1 = ExpensesService.invalidateCache sMid u := by
  unfold ExpensesService.create at h
  split at h
  next => cases h
  next =>
  split at h
  next => cases h
  next =>
  split at h
  next => cases h
  next mN sMid heq =>
    cases h
    exact ⟨rfl, rfl, rfl, rfl, rfl, rfl, mN, sMid, heq, rfl⟩

/-- Inversion of a successful `createFromOcr` (see `expCreate_ok_elim`). -/
theorem expCreateOcr_ok_elim {s : St} {u : UserId} {data : OcrExpenseData}
    {url key : String} {e1 : Expense} {s1 : St}
    (h : ExpensesService.createFromOcr s u data url key = Except.ok (e1, s1)) :
    e1.id = s.nextId ∧ e1.amount = data.amount ∧ e1.userId = u ∧
    e1.paymentMethodId = data.paymentMethodId ∧ e1.categoryId = data.categoryId ∧
    e1.source = ExpenseSource.ocr ∧
    ∃ mN sMid, PaymentMethodsService.updateBalance
        { s with expenses := s.expenses ++ [e1], nextId := s.nextId + 1 }
        u data.paymentMethodId data.amount PaymentMethodsService.BalanceOp.subtract
        = Except.ok (mN, sMid) ∧
      s1 = ExpensesService.invalidateCache sMid u := by
  unfold ExpensesService.createFromOcr at h
  split at h
  next => cases h
  next =>
  split at h
  next => cases h
  next =>
  split at h
  next => cases h
  next mN sMid heq =>
    cases h
    exact ⟨rfl, rfl, rfl, rfl, rfl, rfl, mN, sMid, heq, rfl⟩

/-- Inversion of a successful `createFromVoice` (see `expCreate_ok_elim`). -/
theorem expCreateVoice_ok_elim {s : St} {u : UserId} {data : VoiceExpenseData}
    {e1 : Expense} {s1 : St}
    (h : ExpensesService.createFromVoice s u data = Except.ok (e1, s1)) :
    e1.id = s.nextId ∧ e1.amount = data.amount ∧ e1.userId = u ∧
    e1.paymentMethodId = data.paymentMethodId ∧ e1.categoryId = data.categoryId ∧
    e1.source = ExpenseSource.voice ∧
    ∃ mN sMid, PaymentMethodsService.updateBalance
        { s with expenses := s.expenses ++ [e1], nextId := s.nextId + 1 }
        u data.paymentMethodId data.amount PaymentMethodsService.BalanceOp.subtract
        = Except.ok (mN, sMid) ∧
      s1 = ExpensesService.invalidateCache sMid u := by
  unfold ExpensesService.createFromVoice at h
  split at h
  next => cases h
  next =>
  split at h
  next => cases h
  next =>
  split at h
  next => cases h
  next mN sMid heq =>
    cases h
    exact ⟨rfl, rfl, rfl, rfl, rfl, rfl, mN, sMid, heq, rfl⟩

/-- Inversion of a successful expense `update`: the stored row becomes
`applyUpdate e0 dto`; if neither the amount nor the payment method changed no
balance is touched, otherwise the old amount is credited back to the old
method and the new amount debited from the new one. -/
theorem expUpdate_ok_elim {s : St} {u : UserId} {id : EntityId}
    {dto : UpdateExpenseDto} {eN : Expense} {s3 : St}
    (h : ExpensesService.update s u id dto = Except.ok (eN, s3)) :
    ∃ e0 ∈ s.expenses, e0.id = id ∧ e0.userId = u ∧
      eN = ExpensesService.applyUpdate e0 dto ∧
      (∀ pid2, dto.paymentMethodId = some pid2 →
        ∃ m ∈ s.paymentMethods, m.id = pid2 ∧ m.userId = u) ∧
      ((e0.amount = eN.amount ∧ e0.paymentMethodId = eN.paymentMethodId) ∧
        s3 = ExpensesService.invalidateCache
          { s with expenses := ExpensesService.saveById s.expenses eN } u
       ∨ ∃ mA sA mB sB,
          PaymentMethodsService.updateBalance
              { s with expenses := ExpensesService.saveById s.expenses eN }
              u e0.paymentMethodId e0.amount PaymentMethodsService.BalanceOp.add
            = Except.ok (mA, sA) ∧
          PaymentMethodsService.updateBalance sA u eN.paymentMethodId eN.amount
              PaymentMethodsService.BalanceOp.subtract
            = Except.ok (mB, sB) ∧
          s3 = ExpensesService.invalidateCache sB u) := by
  unfold ExpensesService.update at h
  split at h
  next => cases h
  next e0 hfind =>
    obtain ⟨hmem, hid, hu⟩ := expFindOne_ok hfind
    refine ⟨e0, hmem, hid, hu, ?_⟩
    split at h
    next => cases h
    next =>
    split at h
    next => cases h
    next hpmv =>
      have hpm : ∀ pid2, dto.paymentMethodId = some pid2 →
          ∃ m ∈ s.paymentMethods, m.id = pid2 ∧ m.userId = u := by
        intro pid2 hp
        rw [hp] at hpmv
        have hpmv2 : (PaymentMethodsService.findOne s u pid2).map (fun _ => ())
            = Except.ok _ := hpmv
        cases hf : PaymentMethodsService.findOne s u pid2 with
        | error e => rw [hf] at hpmv2; cases hpmv2
        | ok m =>
          obtain ⟨hm, hd, hw⟩ := pmFindOne_ok hf
          exact ⟨m, hm, hd, hw⟩
      split at h
      next hch =>
        split at h
        next => cases h
        next mA sA heqA =>
        split at h
        next => cases h
        next mB sB heqB =>
          cases h
          exact ⟨rfl, hpm, Or.inr ⟨mA, sA, mB, sB, heqA, heqB, rfl⟩⟩
      next hch =>
        push_neg at hch
        cases h
        exact ⟨rfl, hpm, Or.inl ⟨⟨hch.1, hch.2⟩, rfl⟩⟩

/-- Inversion of a successful expense `remove`: the amount is credited back to
the linked method, the row disappears, the summary cache is evicted. -/
theorem expRemove_ok_elim {s : St} {u : UserId} {id : EntityId} {s2 : St}
    (h : ExpensesService.remove s u id = Except.ok ((), s2)) :
    ∃ e0 ∈ s.expenses, e0.id = id ∧ e0.userId = u ∧
      ∃ mA sA, PaymentMethodsService.updateBalance s u e0.paymentMethodId e0.amount
          PaymentMethodsService.BalanceOp.add = Except.ok (mA, sA) ∧
        s2 = ExpensesService.invalidateCache
          { sA with expenses := sA.expenses.filter (fun e => e.id != e0.id) } u := by
  unfold ExpensesService.remove at h
  split at h
  next => cases h
  next e0 hfind =>
    obtain ⟨hmem, hid, hu⟩ := expFindOne_ok hfind
    split at h
    next => cases h
    next mA sA heqA =>
      cases h
      exact ⟨e0, hmem, hid, hu, mA, sA, heqA, rfl⟩

theorem liveSum_eq_of_expenses {s1 s2 : St} (h : s1.expenses = s2.expenses) (q : EntityId) :
    liveSum s1 q = liveSum s2 q := by
  unfold liveSum
  rw [h]

theorem bound_transfer_attr {α : Type} (f : α → Nat) {l l1 : List α}
    (hmap : l1.map f = l.map f) {n : Nat} (h : ∀ x ∈ l, f x < n) : ∀ x ∈ l1, f x < n := by
  intro x hx
  have hmem : f x ∈ l.map f := by
    rw [← hmap]
    exact List.mem_map_of_mem f hx
  obtain ⟨y, hy, hfy⟩ := List.mem_map.mp hmem
  exact hfy ▸ h y hy

/-- Common preservation argument for the three expense-creation paths: the
persisted row plus the debit keep the state well-formed and preserve, for
every payment method, the sum of its balance and of its live charges. -/
theorem createCommon_preserve {s : St} {u : UserId} {e1 : Expense} {s1 : St}
    {pid : EntityId} {amt : ℚ} (hwf : WellFormed s)
    (hid : e1.id = s.nextId) (hamt : e1.amount = amt) (huser : e1.userId = u)
    (hpm : e1.paymentMethodId = pid)
    (hub : ∃ mN sMid, PaymentMethodsService.updateBalance
        { s with expenses := s.expenses ++ [e1], nextId := s.nextId + 1 }
        u pid amt PaymentMethodsService.BalanceOp.subtract = Except.ok (mN, sMid) ∧
      s1 = ExpensesService.invalidateCache sMid u) :
    WellFormed s1 ∧ ∀ q, pmBalanceSum s1 q + liveSum s1 q = pmBalanceSum s q + liveSum s q := by
  obtain ⟨⟨hndPm, hndEx⟩, href, hbPm, hbEx⟩ := hwf
  obtain ⟨mN, sMid, hU, hs1⟩ := hub
  subst hs1
  have hndIns : ((({ s with expenses := s.expenses ++ [e1], nextId := s.nextId + 1 } : St)
      |>.paymentMethods).map (fun m => m.id)).Nodup := hndPm
  obtain ⟨hcat, hexp, hcache, hnid, hpair, hbal⟩ := updateBalance_effect hndIns hU
  obtain ⟨m0, hm0, hm0id, hm0u, _, _⟩ := updateBalance_ok_elim hU
  have hexpMid : sMid.expenses = s.expenses ++ [e1] := hexp
  have hnidMid : sMid.nextId = s.nextId + 1 := hnid
  have hidsEx : ((s.expenses ++ [e1]).map (fun e => e.id)).Nodup := by
    rw [List.map_append]
    rw [List.nodup_append]
    refine ⟨hndEx, List.nodup_singleton _, ?_⟩
    intro a ha
    simp only [List.map_cons, List.map_nil, List.mem_singleton]
    obtain ⟨e, he, hea⟩ := List.mem_map.mp ha
    intro hcontra
    have := hbEx e he
    rw [hea, hcontra, hid] at this
    exact lt_irrefl _ this
  constructor
  · refine ⟨⟨nodup_ids_transfer hpair hndPm, ?_⟩, ?_, ?_, ?_⟩
    · show ((sMid.expenses).map (fun e => e.id)).Nodup
      rw [hexpMid]
      exact hidsEx
    · show ∀ e ∈ sMid.expenses, _
      rw [hexpMid]
      intro e he
      rcases List.mem_append.mp he with hold | hnew
      · exact pair_transfer hpair (href e hold)
      · have he1 : e = e1 := by simpa using hnew
        subst he1
        refine pair_transfer hpair ⟨m0, hm0, ?_, ?_⟩
        · rw [hm0id, hpm]
        · rw [hm0u, huser]
    · show ∀ m ∈ sMid.paymentMethods, m.id < sMid.nextId
      rw [hnidMid]
      intro m hm
      exact lt_trans (id_bound_transfer hpair hbPm m hm) (Nat.lt_succ_self _)
    · show ∀ e ∈ sMid.expenses, e.id < sMid.nextId
      rw [hexpMid, hnidMid]
      intro e he
      rcases List.mem_append.mp he with hold | hnew
      · exact lt_trans (hbEx e hold) (Nat.lt_succ_self _)
      · have he1 : e = e1 := by simpa using hnew
        rw [he1, hid]
        exact Nat.lt_succ_self _
  · intro q
    have hlive : liveSum (ExpensesService.invalidateCache sMid u) q
        = liveSum s q + (if e1.paymentMethodId == q then e1.amount else 0) := by
      have h1 : liveSum (ExpensesService.invalidateCache sMid u) q
          = liveSum { s with expenses := s.expenses ++ [e1], nextId := s.nextId + 1 } q :=
        liveSum_eq_of_expenses hexpMid q
      rw [h1]
      exact sum_filter_map_append s.expenses e1 _ _
    have hbal2 : pmBalanceSum (ExpensesService.invalidateCache sMid u) q
        = pmBalanceSum s q
          + (if pid = q then balanceAfter PaymentMethodsService.BalanceOp.subtract 0 amt else 0) := by
      have h1 : pmBalanceSum (ExpensesService.invalidateCache sMid u) q = pmBalanceSum sMid q := rfl
      rw [h1, hbal q]
      rfl
    rw [hlive, hbal2]
    by_cases hq : pid = q
    · rw [if_pos hq]
      have : (e1.paymentMethodId == q) = true := by simp [hpm, hq]
      rw [this]
      simp only [if_pos]
      rw [hamt]
      simp [balanceAfter]
      ring
    · rw [if_neg hq]
      have : (e1.paymentMethodId == q) = false := by simp [hpm, hq]
      rw [this]
      simp only [Bool.false_eq_true, if_false]
      ring

/-- Preservation argument for expense `update`. -/
theorem updateExp_preserve {s : St} {u : UserId} {id : EntityId}
    {dto : UpdateExpenseDto} {eN : Expense} {s3 : St} (hwf : WellFormed s)
    (h : ExpensesService.update s u id dto = Except.ok (eN, s3)) :
    WellFormed s3 ∧ ∀ q, pmBalanceSum s3 q + liveSum s3 q = pmBalanceSum s q + liveSum s q := by
  obtain ⟨⟨hndPm, hndEx⟩, href, hbPm, hbEx⟩ := hwf
  obtain ⟨e0, he0, he0id, he0u, heN, hpm, hbr⟩ := expUpdate_ok_elim h
  have heNid : eN.id = e0.id := by rw [heN]; rfl
  have heNu : eN.userId = e0.userId := by rw [heN]; rfl
  have hidsE1 : (ExpensesService.saveById s.expenses eN).map (fun e => e.id)
      = s.expenses.map (fun e => e.id) := by
    unfold ExpensesService.saveById
    exact map_attr_replace (fun (e : Expense) => e.id) (fun (e : Expense) => e.id)
      (fun x _ hxk => hxk)
  have hndE1 : ((ExpensesService.saveById s.expenses eN).map (fun e => e.id)).Nodup := by
    rw [hidsE1]; exact hndEx
  have hbE1 : ∀ e ∈ ExpensesService.saveById s.expenses eN, e.id < s.nextId :=
    bound_transfer_attr (fun (e : Expense) => e.id) hidsE1 hbEx
  have hrefE1 : ∀ e ∈ ExpensesService.saveById s.expenses eN,
      ∃ pm ∈ s.paymentMethods, pm.id = e.paymentMethodId ∧ pm.userId = e.userId := by
    intro e he
    have he2 : e ∈ s.expenses.map (fun x => if x.id = eN.id then eN else x) := he
    rcases mem_replace_elim (fun (e : Expense) => e.id) he2 with heq | hold
    case inr => exact href e hold
    rw [heq]
    · cases hdto : dto.paymentMethodId with
      | none =>
        have hsame : eN.paymentMethodId = e0.paymentMethodId := by
          rw [heN]
          simp [ExpensesService.applyUpdate, hdto]
        rw [hsame, heNu]
        exact href e0 he0
      | some pid2 =>
        obtain ⟨m, hm, hmid, hmu⟩ := hpm pid2 hdto
        have hsame : eN.paymentMethodId = pid2 := by
          rw [heN]
          simp [ExpensesService.applyUpdate, hdto]
        refine ⟨m, hm, ?_, ?_⟩
        · rw [hmid, hsame]
        · rw [hmu, heNu, he0u]
  rcases hbr with ⟨⟨hamt, hpmid⟩, hs3⟩ | ⟨mA, sA, mB, sB, hUA, hUB, hs3⟩
  · subst hs3
    constructor
    · exact ⟨⟨hndPm, hndE1⟩, hrefE1, hbPm, hbE1⟩
    · intro q
      have hlive : liveSum (ExpensesService.invalidateCache
            { s with expenses := ExpensesService.saveById s.expenses eN } u) q
          = liveSum s q + ((if eN.paymentMethodId == q then eN.amount else 0)
            - (if e0.paymentMethodId == q then e0.amount else 0)) := by
        unfold liveSum ExpensesService.saveById
        exact sum_filter_map_replace (fun e => e.id) (fun e => e.paymentMethodId == q)
          (fun e => e.amount) hndEx he0 heNid.symm
      rw [hlive]
      have h1 : pmBalanceSum (ExpensesService.invalidateCache
            { s with expenses := ExpensesService.saveById s.expenses eN } u) q
          = pmBalanceSum s q := rfl
      rw [h1, ← hamt, ← hpmid]
      ring
  · subst hs3
    have hndS1 : ((({ s with expenses := ExpensesService.saveById s.expenses eN } : St)
        |>.paymentMethods).map (fun m => m.id)).Nodup := hndPm
    obtain ⟨hcatA, hexpA, hcacheA, hnidA, hpairA, hbalA⟩ := updateBalance_effect hndS1 hUA
    have hndA : (sA.paymentMethods.map (fun m => m.id)).Nodup :=
      nodup_ids_transfer hpairA hndPm
    obtain ⟨hcatB, hexpB, hcacheB, hnidB, hpairB, hbalB⟩ := updateBalance_effect hndA hUB
    have hpairAB : sB.paymentMethods.map (fun m => (m.id, m.userId))
        = s.paymentMethods.map (fun m => (m.id, m.userId)) := hpairB.trans hpairA
    have hexpAB : sB.expenses = ExpensesService.saveById s.expenses eN :=
      hexpB.trans hexpA
    have hnidAB : sB.nextId = s.nextId := hnidB.trans hnidA
    constructor
    · refine ⟨⟨nodup_ids_transfer hpairAB hndPm, ?_⟩, ?_, ?_, ?_⟩
      · show ((sB.expenses).map (fun e => e.id)).Nodup
        rw [hexpAB]
        exact hndE1
      · show ∀ e ∈ sB.expenses, _
        rw [hexpAB]
        intro e he
        exact pair_transfer hpairAB (hrefE1 e he)
      · show ∀ m ∈ sB.paymentMethods, m.id < sB.nextId
        rw [hnidAB]
        exact id_bound_transfer hpairAB hbPm
      · show ∀ e ∈ sB.expenses, e.id < sB.nextId
        rw [hexpAB, hnidAB]
        exact hbE1
    · intro q
      have hlive : liveSum (ExpensesService.invalidateCache sB u) q
          = liveSum s q + ((if eN.paymentMethodId == q then eN.amount else 0)
            - (if e0.paymentMethodId == q then e0.amount else 0)) := by
        have h1 : liveSum (ExpensesService.invalidateCache sB u) q
            = liveSum { s with expenses := ExpensesService.saveById s.expenses eN } q :=
          liveSum_eq_of_expenses hexpAB q
        rw [h1]
        unfold liveSum ExpensesService.saveById
        exact sum_filter_map_replace (fun e => e.id) (fun e => e.paymentMethodId == q)
          (fun e => e.amount) hndEx he0 heNid.symm
      have hb2 : pmBalanceSum (ExpensesService.invalidateCache sB u) q
          = pmBalanceSum s q
            + (if e0.paymentMethodId = q then
                balanceAfter PaymentMethodsService.BalanceOp.add 0 e0.amount else 0)
            + (if eN.paymentMethodId = q then
                balanceAfter PaymentMethodsService.BalanceOp.subtract 0 eN.amount else 0) := by
        have h1 : pmBalanceSum (ExpensesService.invalidateCache sB u) q
            = pmBalanceSum sB q := rfl
        rw [h1, hbalB q, hbalA q]
        have h2 : pmBalanceSum { s with expenses := ExpensesService.saveById s.expenses eN } q
            = pmBalanceSum s q := rfl
        rw [h2]
      rw [hlive, hb2]
      by_cases h0 : e0.paymentMethodId = q <;> by_cases hN : eN.paymentMethodId = q <;>
        simp [h0, hN, balanceAfter] <;> ring

/-- Preservation argument for expense `remove`. -/
theorem removeExp_preserve {s : St} {u : UserId} {id : EntityId} {s2 : St}
    (hwf : WellFormed s)
    (h : ExpensesService.remove s u id = Except.ok ((), s2)) :
    WellFormed s2 ∧ ∀ q, pmBalanceSum s2 q + liveSum s2 q = pmBalanceSum s q + liveSum s q := by
  obtain ⟨⟨hndPm, hndEx⟩, href, hbPm, hbEx⟩ := hwf
  obtain ⟨e0, he0, he0id, he0u, mA, sA, hUA, hs2⟩ := expRemove_ok_elim h
  subst hs2
  obtain ⟨hcatA, hexpA, hcacheA, hnidA, hpairA, hbalA⟩ := updateBalance_effect hndPm hUA
  have hfilterSub : (sA.expenses.filter (fun e => e.id != e0.id)).Sublist sA.expenses :=
    List.filter_sublist _
  constructor
  · refine ⟨⟨nodup_ids_transfer hpairA hndPm, ?_⟩, ?_, ?_, ?_⟩
    · show ((sA.expenses.filter (fun e => e.id != e0.id)).map (fun e => e.id)).Nodup
      refine List.Nodup.sublist (List.Sublist.map _ hfilterSub) ?_
      rw [hexpA]
      exact hndEx
    · show ∀ e ∈ sA.expenses.filter (fun e => e.id != e0.id), _
      intro e he
      have hmem : e ∈ s.expenses := by
        rw [← hexpA]
        exact List.mem_of_mem_filter he
      exact pair_transfer hpairA (href e hmem)
    · show ∀ m ∈ sA.paymentMethods, m.id < sA.nextId
      rw [hnidA]
      exact id_bound_transfer hpairA hbPm
    · show ∀ e ∈ sA.expenses.filter (fun e => e.id != e0.id), e.id < sA.nextId
      rw [hnidA]
      intro e he
      have hmem : e ∈ s.expenses := by
        rw [← hexpA]
        exact List.mem_of_mem_filter he
      exact hbEx e hmem
  · intro q
    have hlive : liveSum (ExpensesService.invalidateCache
          { sA with expenses := sA.expenses.filter (fun e => e.id != e0.id) } u) q
        = liveSum s q - (if e0.paymentMethodId == q then e0.amount else 0) := by
      show (((sA.expenses.filter (fun e => e.id != e0.id)).filter
          (fun e => e.paymentMethodId == q)).map (fun e => e.amount)).sum
        = liveSum s q - (if e0.paymentMethodId == q then e0.amount else 0)
      rw [hexpA]
      exact sum_filter_map_remove (fun e => e.id) (fun e => e.paymentMethodId == q)
        (fun e => e.amount) hndEx he0
    have hb2 : pmBalanceSum (ExpensesService.invalidateCache
          { sA with expenses := sA.expenses.filter (fun e => e.id != e0.id) } u) q
        = pmBalanceSum s q
          + (if e0.paymentMethodId = q then
              balanceAfter PaymentMethodsService.BalanceOp.add 0 e0.amount else 0) := by
      have h1 : pmBalanceSum (ExpensesService.invalidateCache
            { sA with expenses := sA.expenses.filter (fun e => e.id != e0.id) } u) q
          = pmBalanceSum sA q := rfl
      rw [h1, hbalA q]
    rw [hlive, hb2]
    by_cases h0 : e0.paymentMethodId = q <;> simp [h0, balanceAfter]

theorem exceptMap_snd_ok {α : Type} {f : Except ApiError (α × St)} {s1 : St}
    (h : f.map (·.2) = Except.ok s1) : ∃ a, f = Except.ok (a, s1) := by
  cases f with
  | error e => simp [Except.map] at h
  | ok p =>
    simp [Except.map] at h
    exact ⟨p.1, by rw [← h]⟩

/-- One ledger operation keeps the state well-formed and preserves, for every
payment method, the sum of its running balance and of the amounts of the live
expenses charged against it. -/
theorem runLedgerOp_preserve (s : St) (op : LedgerOp) (hwf : WellFormed s) :
    WellFormed (runLedgerOp s op) ∧ ∀ q,
      pmBalanceSum (runLedgerOp s op) q + liveSum (runLedgerOp s op) q
        = pmBalanceSum s q + liveSum s q := by
  unfold runLedgerOp
  cases happ : applyLedgerOp s op with
  | error e => exact ⟨hwf, fun q => rfl⟩
  | ok s1 =>
    cases op with
    | createManual u dto =>
      obtain ⟨e1, hcr⟩ := exceptMap_snd_ok happ
      obtain ⟨h1, h2, h3, h4, _, _, hub⟩ := expCreate_ok_elim hcr
      exact createCommon_preserve hwf h1 h2 h3 h4 hub
    | createOcr u data url key =>
      obtain ⟨e1, hcr⟩ := exceptMap_snd_ok happ
      obtain ⟨h1, h2, h3, h4, _, _, hub⟩ := expCreateOcr_ok_elim hcr
      exact createCommon_preserve hwf h1 h2 h3 h4 hub
    | createVoice u data =>
      obtain ⟨e1, hcr⟩ := exceptMap_snd_ok happ
      obtain ⟨h1, h2, h3, h4, _, _, hub⟩ := expCreateVoice_ok_elim hcr
      exact createCommon_preserve hwf h1 h2 h3 h4 hub
    | updateExp u id dto =>
      obtain ⟨eN, hcr⟩ := exceptMap_snd_ok happ
      exact updateExp_preserve hwf hcr
    | removeExp u id =>
      obtain ⟨uu, hcr⟩ := exceptMap_snd_ok happ
      exact removeExp_preserve hwf hcr

/-- Sequence version of `runLedgerOp_preserve`. -/
theorem runLedgerOps_preserve (s : St) (ops : List LedgerOp) (hwf : WellFormed s) :
    WellFormed (runLedgerOps s ops) ∧ ∀ q,
      pmBalanceSum (runLedgerOps s ops) q + liveSum (runLedgerOps s ops) q
        = pmBalanceSum s q + liveSum s q := by
  induction ops generalizing s with
  | nil => exact ⟨hwf, fun q => rfl⟩
  | cons op rest ih =>
    obtain ⟨hwf1, hq1⟩ := runLedgerOp_preserve s op hwf
    obtain ⟨hwf2, hq2⟩ := ih (runLedgerOp s op) hwf1
    exact ⟨hwf2, fun q => (hq2 q).trans (hq1 q)⟩

/-- C1 — Balance conservation: in a well-formed state, for every payment
method `m0` with initial balance `B0 = m0.balance` and no live expenses
charged against it, after any finite sequence of Expense Ledger
create/update/delete operations (create debits the method, delete credits the
full amount back, update credits the old amount to the old method then debits
the new amount from the new method whenever the amount or the method changed),
the method's final balance equals `B0` minus the sum of the amounts of the
currently-live expenses charged against it. -/
theorem c1_balance_conservation (s0 : St) (ops : List LedgerOp) (m0 : PaymentMethod)
    (hwf : WellFormed s0) (hm0 : m0 ∈ s0.paymentMethods)
    (hlive0 : liveSum s0 m0.id = 0) :
    ∀ m ∈ (runLedgerOps s0 ops).paymentMethods, m.id = m0.id →
      m.balance = m0.balance - liveSum (runLedgerOps s0 ops) m0.id := by
  intro m hm hid
  obtain ⟨hwfN, hcons⟩ := runLedgerOps_preserve s0 ops hwf
  have hndPm0 : (s0.paymentMethods.map (fun m => m.id)).Nodup := hwf.1.1
  have hndPmN : ((runLedgerOps s0 ops).paymentMethods.map (fun m => m.id)).Nodup := hwfN.1.1
  have hfilt0 : s0.paymentMethods.filter (fun x => x.id == m0.id) = [m0] :=
    filter_key_eq_singleton (fun m => m.id) m0.id hndPm0 hm0 rfl
  have hfiltN : (runLedgerOps s0 ops).paymentMethods.filter (fun x => x.id == m0.id) = [m] :=
    filter_key_eq_singleton (fun m => m.id) m0.id hndPmN hm hid
  have hB0 : pmBalanceSum s0 m0.id = m0.balance := by
    unfold pmBalanceSum
    rw [hfilt0]
    simp
  have hBN : pmBalanceSum (runLedgerOps s0 ops) m0.id = m.balance := by
    unfold pmBalanceSum
    rw [hfiltN]
    simp
  have hc := hcons m0.id
  rw [hBN, hB0, hlive0] at hc
  linarith

/-- Witness for C1, on the spec's scenario examples 1-3: starting from balance
100.00, creating a 30.00 expense yields 70.00, updating its amount to 50.00
yields 50.00, deleting it restores 100.00, and the final balance obeys the
conservation equation. -/
theorem c1_balance_conservation_witness :
    WellFormed baseState ∧ cashMethod ∈ baseState.paymentMethods ∧
    liveSum baseState cashMethod.id = 0 ∧
    (∀ m ∈ (runLedgerOps baseState scenarioOps).paymentMethods, m.id = cashMethod.id →
      m.balance = cashMethod.balance - liveSum (runLedgerOps baseState scenarioOps) cashMethod.id) ∧
    (runLedgerOps baseState (scenarioOps.take 1)).paymentMethods.map (fun m => m.balance)
      = [70] ∧
    (runLedgerOps baseState (scenarioOps.take 2)).paymentMethods.map (fun m => m.balance)
      = [50] ∧
    (runLedgerOps baseState scenarioOps).paymentMethods.map (fun m => m.balance) = [100] :=
  ⟨by decide, by decide, by with_unfolding_all rfl,
   c1_balance_conservation baseState scenarioOps cashMethod (by decide) (by decide)
     (by with_unfolding_all rfl),
   by with_unfolding_all rfl, by with_unfolding_all rfl, by with_unfolding_all rfl⟩

theorem length_filter_map {α : Type} (l : List α) (g : α → α) (p : α → Bool) :
    ((l.map g).filter p).length = (l.filter (fun x => p (g x))).length := by
  induction l with
  | nil => rfl
  | cons a t ih =>
    by_cases h : p (g a) <;> simp [List.filter_cons, h, ih]

theorem filter_clearDefault_self (l : List PaymentMethod) (u : UserId) :
    (PaymentMethodsService.clearDefault l u).filter
      (fun m => m.userId == u && m.isDefault) = [] := by
  rw [List.filter_eq_nil_iff]
  intro m hm
  obtain ⟨x, hx, hxm⟩ := List.mem_map.mp hm
  by_cases hxc : x.userId = u ∧ x.isDefault
  · rw [if_pos hxc] at hxm
    rw [← hxm]
    simp
  · rw [if_neg hxc] at hxm
    rw [← hxm]
    simp only [Bool.and_eq_true, beq_iff_eq, not_and]
    intro h1 h2
    exact hxc ⟨h1, h2⟩

theorem filter_clearDefault_other (l : List PaymentMethod) (u v : UserId) (hvu : v ≠ u) :
    (PaymentMethodsService.clearDefault l u).filter (fun m => m.userId == v && m.isDefault)
      = l.filter (fun m => m.userId == v && m.isDefault) := by
  unfold PaymentMethodsService.clearDefault
  induction l with
  | nil => rfl
  | cons a t ih =>
    rw [List.map_cons, List.filter_cons, List.filter_cons]
    by_cases hu : a.userId = u <;> by_cases hd : a.isDefault = true <;>
      simp [hu, hd, ih, Ne.symm hvu]

/-- After `clearDefault` + save-one-with-default (the core of `setDefault` and
of the default-setting branches of `create`/`update`), the owner has exactly
one default method and no other owner's count changed. -/
theorem count_after_clear_set {l : List PaymentMethod} {u : UserId}
    {pm0 updated : PaymentMethod}
    (hnd : (l.map (fun m => m.id)).Nodup) (hm0 : pm0 ∈ l) (hid : updated.id = pm0.id)
    (hpu : pm0.userId = u)
    (huu : updated.userId = u) (hud : updated.isDefault = true) (w : UserId) :
    ((PaymentMethodsService.saveById (PaymentMethodsService.clearDefault l u) updated).filter
        (fun m => m.userId == w && m.isDefault)).length
      = if w = u then 1 else (l.filter (fun m => m.userId == w && m.isDefault)).length := by
  unfold PaymentMethodsService.saveById PaymentMethodsService.clearDefault
  rw [List.map_map, length_filter_map]
  simp only [Function.comp]
  by_cases hw : w = u
  · rw [if_pos hw]
    have hcong : l.filter (fun x =>
        ((fun x => if x.id = updated.id then updated else x)
            ((fun m => if m.userId = u ∧ m.isDefault then { m with isDefault := false } else m)
              x)).userId == w
          && ((fun x => if x.id = updated.id then updated else x)
            ((fun m => if m.userId = u ∧ m.isDefault then { m with isDefault := false } else m)
              x)).isDefault)
        = l.filter (fun x => x.id == pm0.id) := by
      refine List.filter_congr (fun x hx => ?_)
      by_cases hxi : x.id = pm0.id <;>
        by_cases hu : x.userId = u <;> by_cases hd : x.isDefault = true <;>
          simp [hxi, hu, hd, hid, huu, hud, hw]
    rw [hcong, filter_key_eq_singleton (fun m => m.id) pm0.id hnd hm0 rfl]
    rfl
  · rw [if_neg hw]
    have hne : ¬((u : UserId) = w) := fun h => hw h.symm
    refine congrArg List.length (List.filter_congr (fun x hx => ?_))
    by_cases hxi : x.id = pm0.id
    · have hxeq : x = pm0 := keyUnique (fun m => m.id) hnd hx hm0 hxi
      have hxu : x.userId = u := by rw [hxeq]; exact hpu
      by_cases hd : x.isDefault = true <;>
        simp [hxi, hxu, hd, hid, huu, hud, hne]
    · by_cases hu : x.userId = u <;> by_cases hd : x.isDefault = true <;>
        simp [hxi, hu, hd, hid, hne]

theorem attr_mem_transfer {α β : Type} (f : α → β) {l l1 : List α}
    (hmap : l1.map f = l.map f) : ∀ x1 ∈ l1, ∃ x ∈ l, f x = f x1 := by
  intro x1 hx1
  have hmem : f x1 ∈ l.map f := by
    rw [← hmap]
    exact List.mem_map_of_mem f hx1
  obtain ⟨x, hx, hfx⟩ := List.mem_map.mp hmem
  exact ⟨x, hx, hfx⟩

theorem clearDefault_map_attr {β : Type} (attr : PaymentMethod → β)
    (hattr : ∀ m, attr { m with isDefault := false } = attr m)
    (l : List PaymentMethod) (u : UserId) :
    (PaymentMethodsService.clearDefault l u).map attr = l.map attr := by
  unfold PaymentMethodsService.clearDefault
  rw [List.map_map]
  refine List.map_congr_left (fun x _ => ?_)
  by_cases hc : x.userId = u ∧ x.isDefault
  · simp only [Function.comp, if_pos hc]
    exact hattr x
  · simp only [Function.comp, if_neg hc]

/-- `setDefault` success inversion. -/
theorem pmSetDefault_ok_elim {s : St} {u : UserId} {id : EntityId}
    {mN : PaymentMethod} {s1 : St}
    (h : PaymentMethodsService.setDefault s u id = Except.ok (mN, s1)) :
    ∃ pm0 ∈ s.paymentMethods, pm0.id = id ∧ pm0.userId = u ∧
      mN = { pm0 with isDefault := true } ∧
      s1.paymentMethods = PaymentMethodsService.saveById
        (PaymentMethodsService.clearDefault s.paymentMethods u) mN ∧
      s1.nextId = s.nextId := by
  unfold PaymentMethodsService.setDefault at h
  split at h
  next => cases h
  next pm0 hfind =>
    obtain ⟨hm, hpid, hpu⟩ := pmFindOne_ok hfind
    cases h
    exact ⟨pm0, hm, hpid, hpu, rfl, rfl, rfl⟩

/-- `create` success inversion (payment methods). -/
theorem pmCreate_ok_elim {s : St} {u : UserId} {dto : CreatePaymentMethodDto}
    {mN : PaymentMethod} {s1 : St}
    (h : PaymentMethodsService.create s u dto = Except.ok (mN, s1)) :
    mN.id = s.nextId ∧ mN.userId = u ∧ mN.isDefault = dto.isDefault.getD false ∧
    s1.paymentMethods = (if dto.isDefault.getD false then
        PaymentMethodsService.clearDefault s.paymentMethods u
      else s.paymentMethods) ++ [mN] ∧
    s1.nextId = s.nextId + 1 := by
  unfold PaymentMethodsService.create at h
  split at h
  next => cases h
  next =>
    cases h
    exact ⟨rfl, rfl, rfl, rfl, rfl⟩

/-- `update` success inversion (payment methods). -/
theorem pmUpdate_ok_elim {s : St} {u : UserId} {id : EntityId}
    {dto : UpdatePaymentMethodDto} {mN : PaymentMethod} {s1 : St}
    (h : PaymentMethodsService.update s u id dto = Except.ok (mN, s1)) :
    ∃ pm0 ∈ s.paymentMethods, pm0.id = id ∧ pm0.userId = u ∧
      mN = PaymentMethodsService.applyUpdate pm0 dto ∧
      s1.paymentMethods = PaymentMethodsService.saveById
        (if dto.isDefault.getD false then
          PaymentMethodsService.clearDefault s.paymentMethods u
        else s.paymentMethods) mN ∧
      s1.nextId = s.nextId := by
  unfold PaymentMethodsService.update at h
  split at h
  next => cases h
  next pm0 hfind =>
    obtain ⟨hm, hpid, hpu⟩ := pmFindOne_ok hfind
    split at h
    next => cases h
    next =>
      cases h
      exact ⟨pm0, hm, hpid, hpu, rfl, rfl, rfl⟩

/-- After the clear-all-then-set-target sequence, the only default method of
the owner is the target (no hypotheses needed: every other row of the owner
was just cleared). -/
theorem only_target_default {l : List PaymentMethod} {u : UserId} {updated : PaymentMethod} :
    ∀ m ∈ PaymentMethodsService.saveById (PaymentMethodsService.clearDefault l u) updated,
      m.userId = u → m.isDefault = true → m.id = updated.id := by
  intro m hm hu hd
  unfold PaymentMethodsService.saveById PaymentMethodsService.clearDefault at hm
  rw [List.map_map] at hm
  obtain ⟨x, hx, hxm⟩ := List.mem_map.mp hm
  simp only [Function.comp] at hxm
  by_cases hrep : (if x.userId = u ∧ x.isDefault then
      ({ x with isDefault := false } : PaymentMethod) else x).id = updated.id
  · rw [if_pos hrep] at hxm
    rw [← hxm]
  · rw [if_neg hrep] at hxm
    by_cases hc : x.userId = u ∧ x.isDefault
    · rw [if_pos hc] at hxm
      rw [← hxm] at hd
      simp at hd
    · rw [if_neg hc] at hxm
      rw [← hxm] at hu hd
      exact absurd ⟨hu, hd⟩ hc

theorem defaultCount_le_one (s : St) (hinv : AtMostOneDefault s) (w : UserId) :
    defaultCount s w ≤ 1 := by
  by_cases hex : ∃ x ∈ s.paymentMethods, x.userId = w
  · obtain ⟨x, hx, hxw⟩ := hex
    have := hinv x hx
    rw [hxw] at this
    exact this
  · unfold defaultCount
    push_neg at hex
    rw [List.filter_eq_nil_iff.mpr ?_]
    · exact Nat.zero_le 1
    · intro m hm
      simp only [Bool.and_eq_true, beq_iff_eq, not_and]
      intro h1 _
      exact hex m hm h1

theorem clear_set_map_attr {β : Type} (attr : PaymentMethod → β)
    (hclear : ∀ m, attr { m with isDefault := false } = attr m)
    {l : List PaymentMethod} {u : UserId} {pm0 mN : PaymentMethod}
    (hnd : (l.map (fun m => m.id)).Nodup) (hm0 : pm0 ∈ l) (hid : mN.id = pm0.id)
    (hattrN : attr mN = attr pm0) :
    (PaymentMethodsService.saveById (PaymentMethodsService.clearDefault l u) mN).map attr
      = l.map attr := by
  unfold PaymentMethodsService.saveById PaymentMethodsService.clearDefault
  rw [List.map_map, List.map_map]
  refine List.map_congr_left (fun x hx => ?_)
  simp only [Function.comp]
  by_cases hxi : x.id = pm0.id
  · have hxeq : x = pm0 := keyUnique (fun m => m.id) hnd hx hm0 hxi
    by_cases hc : x.userId = u ∧ x.isDefault
    · rw [if_pos hc]
      have hidc : (({ x with isDefault := false } : PaymentMethod).id = mN.id) := by
        rw [hid]
        exact hxi
      rw [if_pos hidc, hattrN, hxeq]
    · rw [if_neg hc]
      have hidc : x.id = mN.id := by rw [hid]; exact hxi
      rw [if_pos hidc, hattrN, hxeq]
  · by_cases hc : x.userId = u ∧ x.isDefault
    · rw [if_pos hc]
      have hidc : ¬(({ x with isDefault := false } : PaymentMethod).id = mN.id) := by
        rw [hid]
        exact hxi
      rw [if_neg hidc]
      exact hclear x
    · rw [if_neg hc]
      have hidc : ¬(x.id = mN.id) := by rw [hid]; exact hxi
      rw [if_neg hidc]

theorem saveById_map_attr {β : Type} (attr : PaymentMethod → β)
    {l : List PaymentMethod} {pm0 mN : PaymentMethod}
    (hnd : (l.map (fun m => m.id)).Nodup) (hm0 : pm0 ∈ l) (hid : mN.id = pm0.id)
    (hattrN : attr mN = attr pm0) :
    (PaymentMethodsService.saveById l mN).map attr = l.map attr := by
  unfold PaymentMethodsService.saveById
  rw [List.map_map]
  refine List.map_congr_left (fun x hx => ?_)
  simp only [Function.comp]
  by_cases hxi : x.id = mN.id
  · have hxeq : x = pm0 := keyUnique (fun m => m.id) hnd hx hm0 (by show x.id = pm0.id; rw [hxi, hid])
    rw [if_pos hxi, hattrN, hxeq]
  · rw [if_neg hxi]

/-- One payment-method mutation keeps unique ids, the id-generator bound and
the at-most-one-default invariant. -/
theorem runPmOp_preserve (s : St) (op : PmOp) (hwfp : PmWellFormed s)
    (hinv : AtMostOneDefault s) :
    PmWellFormed (runPmOp s op) ∧ AtMostOneDefault (runPmOp s op) := by
  obtain ⟨hnd, hb⟩ := hwfp
  unfold runPmOp
  cases happ : applyPmOp s op with
  | error e => exact ⟨⟨hnd, hb⟩, hinv⟩
  | ok s1 =>
    cases op with
    | setDefaultPm u id =>
      obtain ⟨mN, hop⟩ := exceptMap_snd_ok happ
      obtain ⟨pm0, hm0, hpid, hpu, hmN, hpms, hnid⟩ := pmSetDefault_ok_elim hop
      have hmNid : mN.id = pm0.id := by rw [hmN]
      have hmNu : mN.userId = u := by rw [hmN]; exact hpu
      have hmNd : mN.isDefault = true := by rw [hmN]
      have hids : s1.paymentMethods.map (fun m => m.id)
          = s.paymentMethods.map (fun m => m.id) := by
        rw [hpms]
        exact clear_set_map_attr (fun m => m.id) (fun m => rfl) hnd hm0 hmNid hmNid
      have hcount : ∀ w, defaultCount s1 w ≤ 1 := by
        intro w
        unfold defaultCount
        rw [hpms, count_after_clear_set hnd hm0 hmNid hpu hmNu hmNd w]
        by_cases hw : w = u
        · rw [if_pos hw]
        · rw [if_neg hw]
          exact defaultCount_le_one s hinv w
      refine ⟨⟨?_, ?_⟩, fun m hm => hcount m.userId⟩
      · rw [hids]
        exact hnd
      · rw [hnid]
        exact bound_transfer_attr (fun (m : PaymentMethod) => m.id) hids hb
    | createPm u dto =>
      obtain ⟨mN, hop⟩ := exceptMap_snd_ok happ
      obtain ⟨hmNid, hmNu, hmNd, hpms, hnid⟩ := pmCreate_ok_elim hop
      have hpre : (if dto.isDefault.getD false then
            PaymentMethodsService.clearDefault s.paymentMethods u
          else s.paymentMethods).map (fun m => m.id)
          = s.paymentMethods.map (fun m => m.id) := by
        by_cases hT : dto.isDefault.getD false
        · rw [if_pos hT]
          exact clearDefault_map_attr (fun m => m.id) (fun m => rfl) s.paymentMethods u
        · rw [if_neg hT]
      have hids : s1.paymentMethods.map (fun m => m.id)
          = s.paymentMethods.map (fun m => m.id) ++ [mN.id] := by
        rw [hpms, List.map_append, hpre]
        rfl
      have hcount : ∀ w, defaultCount s1 w ≤ 1 := by
        intro w
        unfold defaultCount
        rw [hpms, List.filter_append, List.length_append]
        by_cases hT : dto.isDefault.getD false
        · rw [if_pos hT]
          by_cases hw : w = u
          · subst hw
            rw [filter_clearDefault_self]
            have h1 : ([mN].filter (fun m => m.userId == w && m.isDefault)).length ≤ 1 := by
              rw [List.filter_cons]
              split <;> simp
            simpa using h1
          · rw [filter_clearDefault_other s.paymentMethods u w (fun h => hw h)]
            have h1 : ([mN].filter (fun m => m.userId == w && m.isDefault)).length = 0 := by
              rw [List.filter_cons]
              rw [if_neg ?_]
              · rfl
              · simp only [Bool.and_eq_true, beq_iff_eq, not_and]
                intro h1
                exact absurd (h1 ▸ hmNu : (w : UserId) = u).symm (fun hq => hw hq.symm)
            rw [h1]
            simpa using defaultCount_le_one s hinv w
        · rw [if_neg hT]
          have h1 : ([mN].filter (fun m => m.userId == w && m.isDefault)).length = 0 := by
            rw [List.filter_cons]
            rw [if_neg ?_]
            · rfl
            · rw [hmNd]
              simp only [Bool.and_eq_true, beq_iff_eq, not_and]
              intro _ hcon
              rw [Bool.not_eq_true] at hT
              rw [hT] at hcon
              cases hcon
          rw [h1]
          simpa using defaultCount_le_one s hinv w
      refine ⟨⟨?_, ?_⟩, fun m hm => hcount m.userId⟩
      · rw [hids, List.nodup_append]
        refine ⟨hnd, List.nodup_singleton _, ?_⟩
        intro a ha
        simp only [List.mem_singleton]
        obtain ⟨m, hm, hma⟩ := List.mem_map.mp ha
        intro hcontra
        have := hb m hm
        rw [hma, hcontra, hmNid] at this
        exact lt_irrefl _ this
      · rw [hnid]
        intro m hm
        have hmem : m.id ∈ s.paymentMethods.map (fun m => m.id) ++ [mN.id] := by
          rw [← hids]
          exact List.mem_map_of_mem (fun m => m.id) hm
        rcases List.mem_append.mp hmem with hold | hnew
        · obtain ⟨m2, hm2, hm2a⟩ := List.mem_map.mp hold
          rw [← hm2a]
          exact lt_trans (hb m2 hm2) (Nat.lt_succ_self _)
        · rw [List.mem_singleton.mp hnew, hmNid]
          exact Nat.lt_succ_self _
    | updatePm u id dto =>
      obtain ⟨mN, hop⟩ := exceptMap_snd_ok happ
      obtain ⟨pm0, hm0, hpid, hpu, hmN, hpms, hnid⟩ := pmUpdate_ok_elim hop
      have hmNid : mN.id = pm0.id := by rw [hmN]; rfl
      have hmNu : mN.userId = pm0.userId := by rw [hmN]; rfl
      have hmNd : mN.isDefault = dto.isDefault.getD pm0.isDefault := by rw [hmN]; rfl
      by_cases hT : dto.isDefault.getD false
      · have hsome : dto.isDefault = some true := by
          cases hdd : dto.isDefault with
          | none => rw [hdd] at hT; cases hT
          | some b =>
            rw [hdd] at hT
            cases b
            · cases hT
            · rfl
        have hmNd2 : mN.isDefault = true := by
          rw [hmNd, hsome]
          rfl
        have hmNu2 : mN.userId = u := by rw [hmNu, hpu]
        have hpms2 : s1.paymentMethods = PaymentMethodsService.saveById
            (PaymentMethodsService.clearDefault s.paymentMethods u) mN := by
          rw [hpms, if_pos hT]
        have hids : s1.paymentMethods.map (fun m => m.id)
            = s.paymentMethods.map (fun m => m.id) := by
          rw [hpms2]
          exact clear_set_map_attr (fun m => m.id) (fun m => rfl) hnd hm0 hmNid hmNid
        have hcount : ∀ w, defaultCount s1 w ≤ 1 := by
          intro w
          unfold defaultCount
          rw [hpms2, count_after_clear_set hnd hm0 hmNid hpu hmNu2 hmNd2 w]
          by_cases hw : w = u
          · rw [if_pos hw]
          · rw [if_neg hw]
            exact defaultCount_le_one s hinv w
        refine ⟨⟨?_, ?_⟩, fun m hm => hcount m.userId⟩
        · rw [hids]
          exact hnd
        · rw [hnid]
          exact bound_transfer_attr (fun (m : PaymentMethod) => m.id) hids hb
      · have hpms2 : s1.paymentMethods
            = PaymentMethodsService.saveById s.paymentMethods mN := by
          rw [hpms, if_neg hT]
        have hids : s1.paymentMethods.map (fun m => m.id)
            = s.paymentMethods.map (fun m => m.id) := by
          rw [hpms2]
          exact saveById_map_attr (fun m => m.id) hnd hm0 hmNid hmNid
        have hcount : ∀ w, defaultCount s1 w ≤ 1 := by
          intro w
          unfold defaultCount
          rw [hpms2]
          unfold PaymentMethodsService.saveById
          rw [length_filter_map]
          refine le_trans (length_filter_le_of_imp _ _ ?_) (defaultCount_le_one s hinv w)
          intro x hx hpw
          by_cases hxi : x.id = mN.id
          · rw [if_pos hxi] at hpw
            have hxeq : x = pm0 := keyUnique (fun m => m.id) hnd hx hm0 (by show x.id = pm0.id; rw [hxi, hmNid])
            cases hdd : dto.isDefault with
            | none =>
              have : mN.isDefault = pm0.isDefault := by rw [hmNd, hdd]; rfl
              simp only [Bool.and_eq_true, beq_iff_eq] at hpw ⊢
              rw [hxeq]
              exact ⟨(hmNu ▸ hpw.1 : pm0.userId = w), this ▸ hpw.2⟩
            | some b =>
              have hbf : b = false := by
                rw [hdd] at hT
                cases b
                · rfl
                · exact absurd rfl hT
              have : mN.isDefault = false := by rw [hmNd, hdd, hbf]; rfl
              rw [Bool.and_eq_true] at hpw
              rw [this] at hpw
              cases hpw.2
          · rw [if_neg hxi] at hpw
            exact hpw
        refine ⟨⟨?_, ?_⟩, fun m hm => hcount m.userId⟩
        · rw [hids]
          exact hnd
        · rw [hnid]
          exact bound_transfer_attr (fun (m : PaymentMethod) => m.id) hids hb

/-- Sequence version of `runPmOp_preserve`. -/
theorem runPmOps_preserve (s : St) (ops : List PmOp) (hwfp : PmWellFormed s)
    (hinv : AtMostOneDefault s) :
    PmWellFormed (runPmOps s ops) ∧ AtMostOneDefault (runPmOps s ops) := by
  induction ops generalizing s with
  | nil => exact ⟨hwfp, hinv⟩
  | cons op rest ih =>
    obtain ⟨h1, h2⟩ := runPmOp_preserve s op hwfp hinv
    exact ih (runPmOp s op) h1 h2

theorem clearDefault_no_default {l : List PaymentMethod} {u : UserId} :
    ∀ m ∈ PaymentMethodsService.clearDefault l u, m.userId = u → ¬m.isDefault = true := by
  intro m hm hu hd
  unfold PaymentMethodsService.clearDefault at hm
  obtain ⟨x, hx, hxm⟩ := List.mem_map.mp hm
  by_cases hc : x.userId = u ∧ x.isDefault
  · rw [if_pos hc] at hxm
    rw [← hxm] at hd
    simp at hd
  · rw [if_neg hc] at hxm
    rw [← hxm] at hu hd
    exact absurd ⟨hu, hd⟩ hc

/-- C2 — At-most-one default: starting from a state where every owner has at
most one default payment method (and primary keys are unique), any sequence of
`create`/`update`/`setDefault` operations keeps it so; moreover each operation
that sets a default clears the flag on all of the owner's other methods first,
so immediately afterwards the owner's only default is the operation's target. -/
theorem c2_at_most_one_default (s0 : St) (ops : List PmOp)
    (hwfp : PmWellFormed s0) (hinv : AtMostOneDefault s0) :
    AtMostOneDefault (runPmOps s0 ops) ∧
    (∀ s u id mN s1, PaymentMethodsService.setDefault s u id = Except.ok (mN, s1) →
      ∀ m ∈ s1.paymentMethods, m.userId = u → m.isDefault = true → m.id = id) ∧
    (∀ s u dto mN s1, PaymentMethodsService.create s u dto = Except.ok (mN, s1) →
      dto.isDefault.getD false = true →
      ∀ m ∈ s1.paymentMethods, m.userId = u → m.isDefault = true → m.id = mN.id) ∧
    (∀ s u id dto mN s1, PaymentMethodsService.update s u id dto = Except.ok (mN, s1) →
      dto.isDefault.getD false = true →
      ∀ m ∈ s1.paymentMethods, m.userId = u → m.isDefault = true → m.id = id) := by
  refine ⟨(runPmOps_preserve s0 ops hwfp hinv).2, ?_, ?_, ?_⟩
  · intro s u id mN s1 h m hm hu hd
    obtain ⟨pm0, hm0, hpid, hpu, hmN, hpms, hnid⟩ := pmSetDefault_ok_elim h
    rw [hpms] at hm
    have := only_target_default m hm hu hd
    rw [this, hmN, hpid]
  · intro s u dto mN s1 h hT m hm hu hd
    obtain ⟨hmNid, hmNu, hmNd, hpms, hnid⟩ := pmCreate_ok_elim h
    rw [hpms, if_pos hT] at hm
    rcases List.mem_append.mp hm with hpre | hnew
    · exact absurd hd (clearDefault_no_default m hpre hu)
    · rw [List.mem_singleton.mp hnew]
  · intro s u id dto mN s1 h hT m hm hu hd
    obtain ⟨pm0, hm0, hpid, hpu, hmN, hpms, hnid⟩ := pmUpdate_ok_elim h
    rw [hpms, if_pos hT] at hm
    have := only_target_default m hm hu hd
    rw [this, hmN]
    exact hpid

/-- Witness for C2, on scenario example 4: methods A and B, set A default,
then set B default: the invariant holds throughout and the final state has
A.isDefault = false, B.isDefault = true. -/
theorem c2_at_most_one_default_witness :
    PmWellFormed twoMethodsState ∧ AtMostOneDefault twoMethodsState ∧
    AtMostOneDefault (runPmOps twoMethodsState defaultOps) ∧
    (runPmOps twoMethodsState defaultOps).paymentMethods.map (fun m => (m.name, m.isDefault))
      = [("A", false), ("B", true)] :=
  ⟨by decide, by decide,
   (c2_at_most_one_default twoMethodsState defaultOps (by decide) (by decide)).1,
   by decide⟩

/-- C3 — Referential deletion guard, evaluated at the failing input: in
`baseState` the owner's category (id 0) and payment method (id 1) have ZERO
referencing expenses, yet both `remove` operations fail with the
has-associated-expenses error, because the TypeORM `getCount()` guard counts
distinct parent rows (1 for any existing row) instead of the joined expenses.
The claim's "zero referencing expenses → delete succeeds" is therefore
violated by the code (its own variable name and error message show the
intent), while "≥ 1 referencing expense → InvalidOperation, state unchanged"
holds trivially since every delete fails before any write. -/
theorem c3_referential_deletion_guard :
    baseState.expenses = [] ∧
    CategoriesService.remove baseState "u" 0
      = Except.error (ApiError.invalidOperation
          "No se puede eliminar una categoría que tiene gastos asociados") ∧
    PaymentMethodsService.remove baseState "u" 1
      = Except.error (ApiError.invalidOperation
          "No se puede eliminar un método de pago que tiene gastos asociados") :=
  ⟨rfl, by with_unfolding_all rfl, by with_unfolding_all rfl⟩

theorem cacheGet_cacheDel_self (c : CacheStore) (k : String) :
    cacheGet (cacheDel c k) k = none := by
  unfold cacheGet cacheDel
  rw [List.find?_eq_none.mpr ?_]
  · rfl
  · intro kv hkv
    have := List.of_mem_filter hkv
    simp only [bne_iff_ne, ne_eq] at this
    simp [this]

theorem getSummary_of_miss {s : St} {u : UserId} (now : SimpleDate)
    (h : cacheGet s.cache (ExpensesService.summaryCacheKey u) = none) :
    (ExpensesService.getSummary s u now).1 = ExpensesService.computeSummary s u now := by
  unfold ExpensesService.getSummary
  rw [h]

/-- C4 — Summary cache invalidation: every successful expense create, update
or delete evicts the acting owner's summary-cache entry before returning, so
a subsequent `getSummary` for that owner can only compute the summary from
the post-mutation state, never serve a value cached before the mutation. -/
theorem c4_cache_invalidation (s : St) (op : LedgerOp) (s1 : St) (now : SimpleDate)
    (h : applyLedgerOp s op = Except.ok s1) :
    cacheGet s1.cache (ExpensesService.summaryCacheKey op.user) = none ∧
    (ExpensesService.getSummary s1 op.user now).1
      = ExpensesService.computeSummary s1 op.user now := by
  have hcachemiss : cacheGet s1.cache (ExpensesService.summaryCacheKey op.user) = none := by
    cases op with
    | createManual u dto =>
      obtain ⟨e1, hcr⟩ := exceptMap_snd_ok h
      obtain ⟨_, _, _, _, _, _, mN, sMid, _, hs1⟩ := expCreate_ok_elim hcr
      rw [hs1]
      exact cacheGet_cacheDel_self sMid.cache _
    | createOcr u data url key =>
      obtain ⟨e1, hcr⟩ := exceptMap_snd_ok h
      obtain ⟨_, _, _, _, _, _, mN, sMid, _, hs1⟩ := expCreateOcr_ok_elim hcr
      rw [hs1]
      exact cacheGet_cacheDel_self sMid.cache _
    | createVoice u data =>
      obtain ⟨e1, hcr⟩ := exceptMap_snd_ok h
      obtain ⟨_, _, _, _, _, _, mN, sMid, _, hs1⟩ := expCreateVoice_ok_elim hcr
      rw [hs1]
      exact cacheGet_cacheDel_self sMid.cache _
    | updateExp u id dto =>
      obtain ⟨eN, hcr⟩ := exceptMap_snd_ok h
      obtain ⟨e0, _, _, _, _, _, hbr⟩ := expUpdate_ok_elim hcr
      rcases hbr with ⟨_, hs1⟩ | ⟨mA, sA, mB, sB, _, _, hs1⟩ <;>
        · rw [hs1]
          exact cacheGet_cacheDel_self _ _
    | removeExp u id =>
      obtain ⟨uu, hcr⟩ := exceptMap_snd_ok h
      obtain ⟨e0, _, _, _, mA, sA, _, hs1⟩ := expRemove_ok_elim hcr
      rw [hs1]
      exact cacheGet_cacheDel_self _ _
  exact ⟨hcachemiss, getSummary_of_miss now hcachemiss⟩

/-- Witness for C4: a concrete manual creation against `baseState` leaves the
owner's summary-cache slot empty and forces `getSummary` to recompute. -/
theorem c4_cache_invalidation_witness :
    cacheGet (runLedgerOp baseState demoCreateOp).cache
        (ExpensesService.summaryCacheKey (demoCreateOp.user)) = none ∧
    (ExpensesService.getSummary (runLedgerOp baseState demoCreateOp)
        (demoCreateOp.user) novDate).1
      = ExpensesService.computeSummary (runLedgerOp baseState demoCreateOp)
        (demoCreateOp.user) novDate :=
  c4_cache_invalidation baseState demoCreateOp (runLedgerOp baseState demoCreateOp) novDate
    (by with_unfolding_all rfl)

theorem userExpenses_nil_of_total_zero {s : St} {u : UserId}
    (hpos : ∀ e ∈ s.expenses, 0 < e.amount)
    (htot : ExpensesService.sumAmounts (ExpensesService.userExpenses s u) = 0) :
    ExpensesService.userExpenses s u = [] := by
  have hmem : ∀ x ∈ ExpensesService.userExpenses s u, 0 < x.amount :=
    fun x hx => hpos x (List.mem_of_mem_filter hx)
  cases hE : ExpensesService.userExpenses s u with
  | nil => rfl
  | cons e t =>
    exfalso
    rw [hE] at hmem htot
    unfold ExpensesService.sumAmounts at htot
    rw [List.map_cons, List.sum_cons] at htot
    have he : 0 < e.amount := hmem e (by simp)
    have ht : 0 ≤ (t.map (fun e => e.amount)).sum := by
      refine List.sum_nonneg (fun x hx => ?_)
      obtain ⟨y, hy, hxy⟩ := List.mem_map.mp hx
      rw [← hxy]
      exact le_of_lt (hmem y (by simp [hy]))
    linarith

/-- C5 — Percentage-of-total guard: in any state whose stored amounts are all
positive (which the `@Min(0.01)` DTO validation guarantees for every ingestion
path), if `getSummary` computes a summary whose total is 0, the owner has no
expenses at all, so both breakdowns are empty and — vacuously — every entry of
`byCategory` and `byPaymentMethod` carries percentage 0 and none carries the
NaN marker (`percentage = none`, the embedding of the JS division-by-zero). -/
theorem c5_percentage_guard (s : St) (u : UserId) (now : SimpleDate)
    (hpos : ∀ e ∈ s.expenses, 0 < e.amount)
    (hmiss : cacheGet s.cache (ExpensesService.summaryCacheKey u) = none)
    (htot : (ExpensesService.getSummary s u now).1.totalAmount = 0) :
    (ExpensesService.getSummary s u now).1.byCategory = [] ∧
    (ExpensesService.getSummary s u now).1.byPaymentMethod = [] ∧
    (∀ entry ∈ (ExpensesService.getSummary s u now).1.byCategory,
      entry.percentage = some 0 ∧ entry.percentage ≠ none) ∧
    (∀ entry ∈ (ExpensesService.getSummary s u now).1.byPaymentMethod,
      entry.percentage = some 0 ∧ entry.percentage ≠ none) := by
  have hq := getSummary_of_miss now hmiss
  rw [hq] at htot ⊢
  have htot2 : ExpensesService.sumAmounts (ExpensesService.userExpenses s u) = 0 := htot
  have hnil := userExpenses_nil_of_total_zero hpos htot2
  have hbc : (ExpensesService.computeSummary s u now).byCategory = [] := by
    show insertionSortBy _ (ExpensesService.byCategoryEntries s u _) = []
    unfold ExpensesService.byCategoryEntries
    rw [hnil]
    rfl
  have hbp : (ExpensesService.computeSummary s u now).byPaymentMethod = [] := by
    show insertionSortBy _ (ExpensesService.byPaymentMethodEntries s u _) = []
    unfold ExpensesService.byPaymentMethodEntries
    rw [hnil]
    rfl
  refine ⟨hbc, hbp, ?_, ?_⟩
  · rw [hbc]
    intro entry hentry
    cases hentry
  · rw [hbp]
    intro entry hentry
    cases hentry

/-- Witness for C5: an owner with no expenses has total 0 and empty, NaN-free
breakdowns. -/
theorem c5_percentage_guard_witness :
    (ExpensesService.getSummary baseState "u" novDate).1.byCategory = [] ∧
    (ExpensesService.getSummary baseState "u" novDate).1.byPaymentMethod = [] ∧
    (∀ entry ∈ (ExpensesService.getSummary baseState "u" novDate).1.byCategory,
      entry.percentage = some 0 ∧ entry.percentage ≠ none) ∧
    (∀ entry ∈ (ExpensesService.getSummary baseState "u" novDate).1.byPaymentMethod,
      entry.percentage = some 0 ∧ entry.percentage ≠ none) :=
  c5_percentage_guard baseState "u" novDate (by decide) (by decide)
    (by with_unfolding_all rfl)

/-- C8 — Month-over-month change: on a cache miss, `getSummary` returns
`percentageChange = (currentMonthTotal - lastMonthTotal) / lastMonthTotal *
100` whenever the previous calendar month's total is strictly positive, and
returns 0 otherwise (a previous-month total of 0 yields 0, not a division
error); the two month totals are the sums of the owner's expenses dated
inside the current and the previous calendar month. -/
theorem c8_percentage_change (s : St) (u : UserId) (now : SimpleDate)
    (hmiss : cacheGet s.cache (ExpensesService.summaryCacheKey u) = none) :
    (ExpensesService.getSummary s u now).1.currentMonthTotal
      = ExpensesService.monthRangeSum s u (startOfMonth now) (endOfMonth now) ∧
    (ExpensesService.getSummary s u now).1.lastMonthTotal
      = ExpensesService.monthRangeSum s u (startOfMonth (subOneMonth now))
          (endOfMonth (subOneMonth now)) ∧
    ((ExpensesService.getSummary s u now).1.lastMonthTotal > 0 →
      (ExpensesService.getSummary s u now).1.percentageChange
        = ((ExpensesService.getSummary s u now).1.currentMonthTotal
            - (ExpensesService.getSummary s u now).1.lastMonthTotal)
          / (ExpensesService.getSummary s u now).1.lastMonthTotal * 100) ∧
    (¬(ExpensesService.getSummary s u now).1.lastMonthTotal > 0 →
      (ExpensesService.getSummary s u now).1.percentageChange = 0) := by
  have hq := getSummary_of_miss now hmiss
  rw [hq]
  have hpc : (ExpensesService.computeSummary s u now).percentageChange
      = if (ExpensesService.computeSummary s u now).lastMonthTotal > 0 then
          ((ExpensesService.computeSummary s u now).currentMonthTotal
            - (ExpensesService.computeSummary s u now).lastMonthTotal)
          / (ExpensesService.computeSummary s u now).lastMonthTotal * 100
        else 0 := rfl
  refine ⟨rfl, rfl, ?_, ?_⟩
  · intro hgt
    rw [hpc, if_pos hgt]
  · intro hle
    rw [hpc, if_neg hle]

/-- Witness for C8: with no expenses the previous month's total is 0, so the
percentage change is 0 rather than a division-by-zero artifact. -/
theorem c8_percentage_change_witness :
    (ExpensesService.getSummary baseState "u" novDate).1.percentageChange = 0 :=
  (c8_percentage_change baseState "u" novDate (by decide)).2.2.2
    (by
      intro hc
      rw [show (ExpensesService.getSummary baseState "u" novDate).1.lastMonthTotal = 0 from
        by with_unfolding_all rfl] at hc
      exact lt_irrefl 0 hc)

/-- C10 — Active-default edge case: `getDefault` only ever returns a method
that belongs to the owner and has both `isDefault = true` and
`isActive = true`; when every default method of the owner is deactivated, it
returns `null` (`none`) rather than the inactive default or an error. -/
theorem c10_get_default_active_only (s : St) (u : UserId) :
    (∀ m, PaymentMethodsService.getDefault s u = some m →
      m.userId = u ∧ m.isDefault = true ∧ m.isActive = true) ∧
    ((∀ m ∈ s.paymentMethods, m.userId = u → m.isDefault = true → m.isActive = false) →
      PaymentMethodsService.getDefault s u = none) := by
  constructor
  · intro m h
    have hp := List.find?_some h
    simp only [Bool.and_eq_true, beq_iff_eq] at hp
    exact ⟨hp.1.1, hp.1.2, hp.2⟩
  · intro hall
    unfold PaymentMethodsService.getDefault
    rw [List.find?_eq_none]
    intro m hm
    simp only [Bool.and_eq_true, beq_iff_eq, not_and]
    intro h1
    rw [hall m hm h1.1 h1.2]
    simp

/-- Witness for C10: an owner whose only default method is deactivated gets
`none` from `getDefault`. -/
theorem c10_get_default_active_only_witness :
    PaymentMethodsService.getDefault inactiveDefaultState "u" = none :=
  (c10_get_default_active_only inactiveDefaultState "u").2 (by decide)

theorem cacheGet_cacheSet_self (c : CacheStore) (k : String) (v : CacheValue) :
    cacheGet (cacheSet c k v) k = some v := by
  unfold cacheGet cacheSet
  simp [List.find?]

theorem findAll_of_miss {s : St} {u : UserId}
    (h : cacheGet s.cache (CategoriesService.cacheKey u) = none) :
    CategoriesService.findAll s u = (CategoriesService.findAllList s u, { s with cache := cacheSet s.cache (CategoriesService.cacheKey u) (CacheValue.categoryList (CategoriesService.findAllList s u)) }) := by
  unfold CategoriesService.findAll
  rw [h]

theorem findAll_of_hit {s : St} {u : UserId} {L : List Category}
    (h : cacheGet s.cache (CategoriesService.cacheKey u)
      = some (CacheValue.categoryList L)) :
    CategoriesService.findAll s u = (L, s) := by
  unfold CategoriesService.findAll
  rw [h]

theorem suggestCategory_shape (s : St) (u : UserId) (d : String) :
    ExpensesService.suggestCategory s u d
      = (fallbackCategoryId (CategoriesService.findAll s u).1,
         (CategoriesService.findAll s u).2) := rfl

/-- C6 counterexample: owner "u" has a category literally named "Other"
(id 1), and the hint "zzz" matches no keyword; the claim demands the id of
"Other", but `suggestCategoryFromHint` returns id 0 ("Alpha", the first
category of the list), because the code's fallback looks for the literal name
"Otros", not "Other". -/
theorem c6_counterexample :
    otherCategory ∈ englishOtherState.categories ∧ otherCategory.name = "Other" ∧
    otherCategory.id = 1 ∧
    (ExpensesService.suggestCategoryFromHint englishOtherState "u" (some "zzz")).1 = some 0 ∧
    (some 0 : Option EntityId) ≠ some 1 :=
  ⟨by decide, rfl, rfl, by with_unfolding_all rfl, by decide⟩

/-- C6 (amended) — Category suggestion: for every owner and hint (on a
category-cache miss), `suggestCategoryFromHint` lowercases the hint and maps
the fixed Spanish vocabulary (comida, transporte, entretenimiento, salud,
educacion, compras, servicios) to the Spanish category names; it returns the
id of the first category of the owner's visible list (own ∪ system, ordered
by orderIndex then name) whose name equals the mapped name; when the hint is
absent or empty, no keyword matches, or no category carries the mapped name,
it falls back to the owner's category literally named "Otros" (not "Other"),
and when no such category exists, to the first category in the owner's list
order (none when the list is empty). -/
theorem c6_suggest_category_from_hint (s : St) (u : UserId) (hint : Option String)
    (hmiss : cacheGet s.cache (CategoriesService.cacheKey u) = none) :
    (ExpensesService.suggestCategoryFromHint s u hint).1
      = suggestHintSpec (CategoriesService.findAllList s u) hint := by
  have hhit : cacheGet (cacheSet s.cache (CategoriesService.cacheKey u)
      (CacheValue.categoryList (CategoriesService.findAllList s u)))
      (CategoriesService.cacheKey u)
      = some (CacheValue.categoryList (CategoriesService.findAllList s u)) :=
    cacheGet_cacheSet_self _ _ _
  cases hint with
  | none =>
    show (ExpensesService.suggestCategory s u "").1 = _
    rw [suggestCategory_shape, findAll_of_miss hmiss]
    rfl
  | some h =>
    by_cases hE : h = ""
    · subst hE
      show (ExpensesService.suggestCategory s u "").1 = _
      rw [suggestCategory_shape, findAll_of_miss hmiss]
      rfl
    · have hform : ExpensesService.suggestCategoryFromHint s u (some h)
          = (match (ExpensesService.categoryMap.find? (fun kv => kv.1 == h.toLower)).map
                (·.2) with
             | some nm =>
               match (CategoriesService.findAll s u).1.find? (fun c => c.name == nm) with
               | some c => (some c.id, (CategoriesService.findAll s u).2)
               | none => ExpensesService.suggestCategory (CategoriesService.findAll s u).2 u ""
             | none =>
               ExpensesService.suggestCategory (CategoriesService.findAll s u).2 u "") := by
        simp only [ExpensesService.suggestCategoryFromHint]
        rw [if_neg hE]
      have hspec : suggestHintSpec (CategoriesService.findAllList s u) (some h)
          = (match (ExpensesService.categoryMap.find? (fun kv => kv.1 == h.toLower)).map
                (·.2) with
             | some nm =>
               match (CategoriesService.findAllList s u).find? (fun c => c.name == nm) with
               | some c => some c.id
               | none => fallbackCategoryId (CategoriesService.findAllList s u)
             | none => fallbackCategoryId (CategoriesService.findAllList s u)) := by
        simp only [suggestHintSpec]
        rw [if_neg hE]
      rw [hform, hspec, findAll_of_miss hmiss]
      cases hk : (ExpensesService.categoryMap.find? (fun kv => kv.1 == h.toLower)).map
          (·.2) with
      | none =>
        simp only
        rw [suggestCategory_shape, findAll_of_hit hhit]
      | some nm =>
        simp only
        cases hc : (CategoriesService.findAllList s u).find? (fun c => c.name == nm) with
        | some c => simp only
        | none =>
          simp only
          rw [suggestCategory_shape, findAll_of_hit hhit]

/-- Witness for C6 (amended): the hint "COMIDA" maps case-insensitively to the
owner's category "Comida" (id 0) in `baseState`. -/
theorem c6_suggest_category_from_hint_witness :
    (ExpensesService.suggestCategoryFromHint baseState "u" (some "COMIDA")).1
      = suggestHintSpec (CategoriesService.findAllList baseState "u") (some "COMIDA") ∧
    (ExpensesService.suggestCategoryFromHint baseState "u" (some "COMIDA")).1 = some 0 :=
  ⟨c6_suggest_category_from_hint baseState "u" (some "COMIDA") (by decide),
   by with_unfolding_all rfl⟩

theorem posOf_eq_none {l : List EntityId} {a : EntityId} (h : a ∉ l) : posOf l a = none := by
  induction l with
  | nil => rfl
  | cons x xs ih =>
    unfold posOf
    rw [if_neg (fun hx => h (by rw [← hx]; exact List.mem_cons_self x xs)),
      ih (fun hx => h (List.mem_cons_of_mem x hx))]
    rfl

theorem catFindOne_eq {s : St} {u : UserId} {a : EntityId} {c0 : Category}
    (hnd : (s.categories.map (fun c => c.id)).Nodup)
    (hc0 : c0 ∈ s.categories) (hid : c0.id = a)
    (hvis : c0.userId = some u ∨ c0.isSystem = true) :
    CategoriesService.findOne s u a = Except.ok c0 := by
  unfold CategoriesService.findOne
  cases hf : s.categories.find? (fun c => c.id == a && (c.userId == some u || c.isSystem)) with
  | none =>
    exfalso
    rw [List.find?_eq_none] at hf
    refine hf c0 hc0 ?_
    rcases hvis with hv | hv <;> simp [hid, hv]
  | some c1 =>
    have hmem := List.mem_of_find?_eq_some hf
    have hp := List.find?_some hf
    simp only [Bool.and_eq_true, beq_iff_eq] at hp
    have hc : c1 = c0 := keyUnique (fun c => c.id) hnd hmem hc0
      (by show c1.id = c0.id; rw [hp.1, hid])
    rw [hc]

/-- Invariant-carrying induction for the `reorder` loop: when every listed id
resolves to an owned or system category, the loop succeeds and assigns
`orderIndex := i + position` to the listed categories the caller owns, leaves
system and unlisted rows untouched, and changes nothing else. -/
theorem reorderLoop_ok {u : UserId} (ids : List EntityId) :
    ∀ (s : St) (i : Nat),
    (s.categories.map (fun c => c.id)).Nodup → ids.Nodup →
    (∀ idv ∈ ids, ∃ c ∈ s.categories, c.id = idv ∧ (c.userId = some u ∨ c.isSystem = true)) →
    ∃ s1, CategoriesService.reorderLoop s u ids i = Except.ok s1 ∧
      s1.categories = s.categories.map (fun c =>
        match posOf ids c.id with
        | some k => if c.userId = some u then { c with orderIndex := ((i + k : Nat) : Int) } else c
        | none => c) ∧
      s1.cache = s.cache ∧ s1.paymentMethods = s.paymentMethods ∧
      s1.expenses = s.expenses ∧ s1.nextId = s.nextId := by
  induction ids with
  | nil =>
    intro s i hnd hdup hres
    refine ⟨s, rfl, ?_, rfl, rfl, rfl, rfl⟩
    have : s.categories.map (fun c =>
        match posOf [] c.id with
        | some k => if c.userId = some u then { c with orderIndex := ((i + k : Nat) : Int) } else c
        | none => c) = s.categories.map (fun c => c) :=
      List.map_congr_left (fun c _ => rfl)
    rw [this, List.map_id']
  | cons a rest ih =>
    intro s i hnd hdup hres
    obtain ⟨c0, hc0, hc0id, hc0vis⟩ := hres a (List.mem_cons_self a rest)
    have hanotin : a ∉ rest := (List.nodup_cons.mp hdup).1
    have hdup2 : rest.Nodup := (List.nodup_cons.mp hdup).2
    have h1 : CategoriesService.reorderLoop s u (a :: rest) i
        = (match CategoriesService.findOne s u a with
           | Except.error e => Except.error e
           | Except.ok category =>
             CategoriesService.reorderLoop
               (if category.userId = some u then { s with categories := CategoriesService.saveById s.categories { category with orderIndex := (i : Int) } } else s)
               u rest (i + 1)) := rfl
    have hstep : CategoriesService.reorderLoop s u (a :: rest) i
        = CategoriesService.reorderLoop
          (if c0.userId = some u then { s with categories := CategoriesService.saveById s.categories { c0 with orderIndex := (i : Int) } } else s)
          u rest (i + 1) := by
      rw [h1, catFindOne_eq hnd hc0 hc0id hc0vis]
    rw [hstep]
    by_cases ho : c0.userId = some u
    · rw [if_pos ho]
      have hids2 : (CategoriesService.saveById s.categories
          { c0 with orderIndex := (i : Int) }).map (fun c => c.id)
          = s.categories.map (fun c => c.id) := by
        unfold CategoriesService.saveById
        exact map_attr_replace (fun (c : Category) => c.id) (fun (c : Category) => c.id)
          (fun x _ hxk => hxk)
      have hnd2 : ((CategoriesService.saveById s.categories
          { c0 with orderIndex := (i : Int) }).map (fun c => c.id)).Nodup := by
        rw [hids2]
        exact hnd
      have hres2 : ∀ idv ∈ rest, ∃ c ∈ CategoriesService.saveById s.categories
          { c0 with orderIndex := (i : Int) },
          c.id = idv ∧ (c.userId = some u ∨ c.isSystem = true) := by
        intro idv hidv
        obtain ⟨c, hc, hcid, hcvis⟩ := hres idv (List.mem_cons_of_mem a hidv)
        unfold CategoriesService.saveById
        by_cases hcre : c.id = ({ c0 with orderIndex := (i : Int) } : Category).id
        · have hceq : c = c0 := keyUnique (fun c => c.id) hnd hc hc0 hcre
          refine ⟨{ c0 with orderIndex := (i : Int) }, ?_, ?_, ?_⟩
          · exact List.mem_map.mpr ⟨c, hc, by rw [if_pos hcre]⟩
          · show c0.id = idv
            rw [← hceq]
            exact hcid
          · show c0.userId = some u ∨ c0.isSystem = true
            rw [← hceq]
            exact hcvis
        · refine ⟨c, ?_, hcid, hcvis⟩
          exact List.mem_map.mpr ⟨c, hc, by rw [if_neg hcre]⟩
      obtain ⟨s2, hrun, hcats, hcache, hpm, hexp, hnid⟩ :=
        ih ({ s with categories := CategoriesService.saveById s.categories { c0 with orderIndex := (i : Int) } }) (i + 1) hnd2 hdup2 hres2
      refine ⟨s2, hrun, ?_, hcache, hpm, hexp, hnid⟩
      rw [hcats]
      show (CategoriesService.saveById s.categories
          { c0 with orderIndex := (i : Int) }).map _ = _
      unfold CategoriesService.saveById
      rw [List.map_map]
      refine List.map_congr_left (fun c hc => ?_)
      simp only [Function.comp]
      by_cases hcid : c.id = ({ c0 with orderIndex := (i : Int) } : Category).id
      · have hceq : c = c0 := keyUnique (fun c => c.id) hnd hc hc0 hcid
        rw [if_pos hcid]
        have hpos1 : posOf rest ({ c0 with orderIndex := (i : Int) } : Category).id = none := by
          refine posOf_eq_none ?_
          show c0.id ∉ rest
          rw [hc0id]
          exact hanotin
        have hpos2 : posOf (a :: rest) c.id = some 0 := by
          unfold posOf
          rw [if_pos (by rw [hceq, hc0id])]
        rw [hpos1, hpos2]
        simp [hceq, ho]
      · rw [if_neg hcid]
        have hcid2 : ¬(a = c.id) := by
          intro hq
          exact hcid (by show c.id = c0.id; rw [← hq, hc0id])
        have hpos : posOf (a :: rest) c.id = (posOf rest c.id).map (· + 1) := by
          simp only [posOf]
          rw [if_neg hcid2]
        rw [hpos]
        cases hk : posOf rest c.id with
        | none => rfl
        | some k =>
          by_cases hcu : c.userId = some u <;>
            simp [hcu, show i + 1 + k = i + (k + 1) from by omega]
    · rw [if_neg ho]
      obtain ⟨s2, hrun, hcats, hcache, hpm, hexp, hnid⟩ := ih s (i + 1) hnd hdup2
        (fun idv hidv => hres idv (List.mem_cons_of_mem a hidv))
      refine ⟨s2, hrun, ?_, hcache, hpm, hexp, hnid⟩
      rw [hcats]
      refine List.map_congr_left (fun c hc => ?_)
      by_cases hcid : a = c.id
      · have hceq : c = c0 := keyUnique (fun c => c.id) hnd hc hc0
          (by show c.id = c0.id; rw [← hcid, hc0id])
        have hpos2 : posOf (a :: rest) c.id = some 0 := by
          unfold posOf
          rw [if_pos hcid]
        have hpos1 : posOf rest c.id = none := by
          refine posOf_eq_none ?_
          rw [← hcid]
          exact hanotin
        rw [hpos1, hpos2]
        have hnu : ¬(c.userId = some u) := by
          rw [hceq]
          exact ho
        simp [hnu]
      · have hpos : posOf (a :: rest) c.id = (posOf rest c.id).map (· + 1) := by
          simp only [posOf]
          rw [if_neg hcid]
        rw [hpos]
        cases hk : posOf rest c.id with
        | none => rfl
        | some k =>
          by_cases hcu : c.userId = some u <;>
            simp [hcu, show i + 1 + k = i + (k + 1) from by omega]

/-- Counterexample to C7 as frozen: the claim says ids not owned by the caller
are *silently skipped*, but `reorder` calls `findOne` on every listed id, and
`findOne` throws NotFound when the id resolves to another user's non-system
category (or to no category at all).  Here id 5 exists but belongs to "v", and
`reorder` by caller "u" fails instead of skipping it. -/
theorem c7_counterexample :
    foreignCategory ∈ foreignState.categories ∧
    foreignCategory.id = 5 ∧ foreignCategory.isSystem = false ∧
    foreignCategory.userId = some "v" ∧
    CategoriesService.reorder foreignState "u" [5]
      = Except.error (ApiError.notFound "Categoría no encontrada") :=
  ⟨List.mem_cons_self _ _, rfl, rfl, rfl, by with_unfolding_all rfl⟩

/-- C7 (amended): when every listed id resolves to a category visible to the
caller (owned or system — the cases `findOne` does not throw on), `reorder`
succeeds; each listed category *owned by the caller* gets
`orderIndex := position-in-list`, listed system categories are skipped without
an error, unlisted categories are untouched, the caller's categories cache
entry is evicted, and nothing else changes.  Ids that do not resolve this way
are NOT silently skipped: `findOne` throws NotFound (see the
counterexample). -/
theorem c7_tolerant_reorder (s : St) (u : UserId) (ids : List EntityId)
    (hnd : (s.categories.map (fun c => c.id)).Nodup)
    (hdup : ids.Nodup)
    (hres : ∀ idv ∈ ids, ∃ c ∈ s.categories,
      c.id = idv ∧ (c.userId = some u ∨ c.isSystem = true)) :
    ∃ s1, CategoriesService.reorder s u ids = Except.ok ((), s1) ∧
      s1.categories = s.categories.map (fun c =>
        match posOf ids c.id with
        | some k => if c.userId = some u then { c with orderIndex := (k : Int) } else c
        | none => c) ∧
      s1.cache = cacheDel s.cache (CategoriesService.cacheKey u) ∧
      s1.paymentMethods = s.paymentMethods ∧ s1.expenses = s.expenses ∧
      s1.nextId = s.nextId := by
  obtain ⟨s2, hrun, hcats, hcache, hpm, hexp, hnid⟩ := reorderLoop_ok ids s 0 hnd hdup hres
  refine ⟨{ s2 with cache := cacheDel s2.cache (CategoriesService.cacheKey u) },
    ?_, ?_, ?_, hpm, hexp, hnid⟩
  · unfold CategoriesService.reorder
    rw [hrun]
  · show s2.categories = _
    rw [hcats]
    refine List.map_congr_left (fun c _ => ?_)
    cases posOf ids c.id with
    | none => rfl
    | some k => simp
  · show cacheDel s2.cache _ = _
    rw [hcache]

theorem c7_tolerant_reorder_witness :
    (∀ idv ∈ ([2, 3, 1] : List EntityId), ∃ c ∈ reorderState.categories,
      c.id = idv ∧ (c.userId = some "u" ∨ c.isSystem = true)) ∧
    (∃ s1, CategoriesService.reorder reorderState "u" [2, 3, 1] = Except.ok ((), s1) ∧
      s1.categories = reorderState.categories.map (fun c =>
        match posOf [2, 3, 1] c.id with
        | some k => if c.userId = some "u" then { c with orderIndex := (k : Int) } else c
        | none => c) ∧
      s1.cache = cacheDel reorderState.cache (CategoriesService.cacheKey "u") ∧
      s1.paymentMethods = reorderState.paymentMethods ∧
      s1.expenses = reorderState.expenses ∧ s1.nextId = reorderState.nextId) ∧
    CategoriesService.reorder reorderState "u" [2, 3, 1] = Except.ok ((),
      { categories :=
          [{ id := 1, name := "P", color := "#000000", isSystem := false,
             orderIndex := 2, userId := some "u" },
           { id := 2, name := "Q", color := "#000000", isSystem := false,
             orderIndex := 0, userId := some "u" },
           { id := 3, name := "Sys", color := "#000000", isSystem := true,
             orderIndex := 4, userId := none }],
        paymentMethods := [], expenses := [], cache := [], nextId := 4 }) :=
  ⟨by decide,
   c7_tolerant_reorder reorderState "u" [2, 3, 1] (by decide) (by decide) (by decide),
   by with_unfolding_all rfl⟩

/-- C9: a successful `update(userId, id, dto)` edits exactly one owned row in
place.  The returned row keeps the original id, owner, source and all
attachment columns (`Object.assign` only touches the DTO's fields, and the
whitelisting ValidationPipe strips everything not declared on
`UpdateExpenseDto`); each DTO field that is absent leaves its column
unchanged; and the expense table afterwards is the original table with only
that row replaced. -/
theorem c9_update_frame (s : St) (u : UserId) (id : EntityId)
    (dto : UpdateExpenseDto) (eN : Expense) (s3 : St)
    (h : ExpensesService.update s u id dto = Except.ok (eN, s3)) :
    ∃ e0 ∈ s.expenses, e0.id = id ∧ e0.userId = u ∧
      eN.id = e0.id ∧ eN.userId = e0.userId ∧ eN.source = e0.source ∧
      eN.receiptUrl = e0.receiptUrl ∧ eN.receiptS3Key = e0.receiptS3Key ∧
      eN.ocrData = e0.ocrData ∧ eN.voiceTranscription = e0.voiceTranscription ∧
      eN.voiceAudioUrl = e0.voiceAudioUrl ∧ eN.voiceAudioS3Key = e0.voiceAudioS3Key ∧
      (dto.amount = none → eN.amount = e0.amount) ∧
      (dto.description = none → eN.description = e0.description) ∧
      (dto.notes = none → eN.notes = e0.notes) ∧
      (dto.date = none → eN.date = e0.date) ∧
      (dto.categoryId = none → eN.categoryId = e0.categoryId) ∧
      (dto.paymentMethodId = none → eN.paymentMethodId = e0.paymentMethodId) ∧
      s3.expenses = s.expenses.map (fun x => if x.id = e0.id then eN else x) := by
  obtain ⟨e0, he0, hid, hu, heN, hpmref, hbr⟩ := expUpdate_ok_elim h
  subst heN
  refine ⟨e0, he0, hid, hu, rfl, rfl, rfl, rfl, rfl, rfl, rfl, rfl, rfl,
    ?_, ?_, ?_, ?_, ?_, ?_, ?_⟩
  · intro hn
    show (ExpensesService.applyUpdate e0 dto).amount = e0.amount
    unfold ExpensesService.applyUpdate
    rw [hn]
    rfl
  · intro hn
    show (ExpensesService.applyUpdate e0 dto).description = e0.description
    unfold ExpensesService.applyUpdate
    rw [hn]
    rfl
  · intro hn
    show (ExpensesService.applyUpdate e0 dto).notes = e0.notes
    unfold ExpensesService.applyUpdate
    show overrideOpt dto.notes e0.notes = e0.notes
    rw [hn]
    rfl
  · intro hn
    show (ExpensesService.applyUpdate e0 dto).date = e0.date
    unfold ExpensesService.applyUpdate
    rw [hn]
    rfl
  · intro hn
    show (ExpensesService.applyUpdate e0 dto).categoryId = e0.categoryId
    unfold ExpensesService.applyUpdate
    rw [hn]
    rfl
  · intro hn
    show (ExpensesService.applyUpdate e0 dto).paymentMethodId = e0.paymentMethodId
    unfold ExpensesService.applyUpdate
    rw [hn]
    rfl
  · rcases hbr with ⟨_, hs3⟩ | ⟨mA, sA, mB, sB, hA, hB, hs3⟩
    · subst hs3
      show ExpensesService.saveById s.expenses (ExpensesService.applyUpdate e0 dto) = _
      unfold ExpensesService.saveById
      refine List.map_congr_left (fun x _ => ?_)
      rfl
    · obtain ⟨m0A, _, _, _, _, hsA⟩ := updateBalance_ok_elim hA
      obtain ⟨m0B, _, _, _, _, hsB⟩ := updateBalance_ok_elim hB
      subst hs3
      subst hsB
      subst hsA
      show ExpensesService.saveById s.expenses (ExpensesService.applyUpdate e0 dto) = _
      unfold ExpensesService.saveById
      refine List.map_congr_left (fun x _ => ?_)
      rfl

theorem c9_update_frame_witness :
    ExpensesService.update voiceExpenseState "u" 2
        { description := some "Mercado" }
      = Except.ok ({ voiceExpense with description := "Mercado" },
        { voiceExpenseState with
            expenses := [{ voiceExpense with description := "Mercado" }] }) ∧
    (∃ e0 ∈ voiceExpenseState.expenses, e0.id = 2 ∧ e0.userId = "u" ∧
      ({ voiceExpense with description := "Mercado" } : Expense).id = e0.id ∧
      ({ voiceExpense with description := "Mercado" } : Expense).userId = e0.userId ∧
      ({ voiceExpense with description := "Mercado" } : Expense).source = e0.source ∧
      ({ voiceExpense with description := "Mercado" } : Expense).receiptUrl = e0.receiptUrl ∧
      ({ voiceExpense with description := "Mercado" } : Expense).receiptS3Key = e0.receiptS3Key ∧
      ({ voiceExpense with description := "Mercado" } : Expense).ocrData = e0.ocrData ∧
      ({ voiceExpense with description := "Mercado" } : Expense).voiceTranscription = e0.voiceTranscription ∧
      ({ voiceExpense with description := "Mercado" } : Expense).voiceAudioUrl = e0.voiceAudioUrl ∧
      ({ voiceExpense with description := "Mercado" } : Expense).voiceAudioS3Key = e0.voiceAudioS3Key ∧
      (({ description := some "Mercado" } : UpdateExpenseDto).amount = none →
        ({ voiceExpense with description := "Mercado" } : Expense).amount = e0.amount) ∧
      (({ description := some "Mercado" } : UpdateExpenseDto).description = none →
        ({ voiceExpense with description := "Mercado" } : Expense).description = e0.description) ∧
      (({ description := some "Mercado" } : UpdateExpenseDto).notes = none →
        ({ voiceExpense with description := "Mercado" } : Expense).notes = e0.notes) ∧
      (({ description := some "Mercado" } : UpdateExpenseDto).date = none →
        ({ voiceExpense with description := "Mercado" } : Expense).date = e0.date) ∧
      (({ description := some "Mercado" } : UpdateExpenseDto).categoryId = none →
        ({ voiceExpense with description := "Mercado" } : Expense).categoryId = e0.categoryId) ∧
      (({ description := some "Mercado" } : UpdateExpenseDto).paymentMethodId = none →
        ({ voiceExpense with description := "Mercado" } : Expense).paymentMethodId = e0.paymentMethodId) ∧
      ({ voiceExpenseState with
          expenses := [{ voiceExpense with description := "Mercado" }] } : St).expenses
        = voiceExpenseState.expenses.map
          (fun x => if x.id = e0.id
            then { voiceExpense with description := "Mercado" } else x)) :=
  ⟨by with_unfolding_all rfl,
   c9_update_frame voiceExpenseState "u" 2 { description := some "Mercado" }
     { voiceExpense with description := "Mercado" }
     { voiceExpenseState with
         expenses := [{ voiceExpense with description := "Mercado" }] }
     (by with_unfolding_all rfl)⟩

end ExpenseTracker
